import Mathlib

/-!
Verification of the KSRTC-HyRO geofenced route broker
(`src/routing/{geometry_utils,cache,client,engine,validator}.py`).

Conventions of the embedding:
* Python floats are modelled as rationals (`ℚ`); `time.time()` values are
  passed in explicitly as `ℚ` parameters.
* The `f"{x:.5f}"` format / `float(...)` parse round-trip of the engine is
  modelled as rounding to 5 decimal places with ties to even (the rounding
  used by Python's fixed-point formatting); the intermediate strings are
  elided, the coordinate values they denote are kept.
* Python dicts are modelled as association lists (insertion order preserved,
  update in place, unique keys); `md5`-based cache keys are modelled by the
  tuple of hashed inputs.
* The upstream HTTP call of `OSRMClient.get_route` is modelled by an
  `HttpOutcome` argument (status code plus body, or a network error); the
  broker's upstream client and validator are oracles supplied as functions.
* `str.lower` is modelled as ASCII case folding on the character list.
-/

attribute [local semireducible] Rat.add Rat.mul Rat.inv Rat.sub Rat.ofScientific

/-! ## GeometryKernel (`geometry_utils.py`) -/

/-- One iteration of the ray-casting loop of `point_in_polygon`: the pair is
`(polygon[i], polygon[j])` with `j` the cyclic predecessor of `i`; vertices are
`(lat, lon)`. -/
def rayCrossing (point : ℚ × ℚ) (pr : (ℚ × ℚ) × (ℚ × ℚ)) : Bool :=
  (decide (pr.1.2 > point.2) != decide (pr.2.2 > point.2)) &&
    decide (point.1 <
      (pr.2.1 - pr.1.1) * (point.2 - pr.1.2) / (pr.2.2 - pr.1.2) + pr.1.1)

/-- The list of `(polygon[i], polygon[j])` pairs visited by the Python loop
`j = len(polygon) - 1; for i in range(len(polygon)): ...; j = i`. -/
def cyclicPairs (l : List (ℚ × ℚ)) : List ((ℚ × ℚ) × (ℚ × ℚ)) :=
  match l.getLast? with
  | none => []
  | some lst => l.zip (lst :: l)

/-- `point_in_polygon` of `geometry_utils.py`: ray casting; `point` and the
polygon vertices are `(lat, lon)`. -/
def point_in_polygon (point : ℚ × ℚ) (polygon : List (ℚ × ℚ)) : Bool :=
  (cyclicPairs polygon).foldl
    (fun inside pr => if rayCrossing point pr then !inside else inside) false

/-- `get_bbox` of `geometry_utils.py`: `(min_lat, min_lon, max_lat, max_lon)`
over a list of `(lat, lon)` points, `(0, 0, 0, 0)` for the empty list. -/
def get_bbox (points : List (ℚ × ℚ)) : ℚ × ℚ × ℚ × ℚ :=
  match points with
  | [] => (0, 0, 0, 0)
  | p :: rest =>
    (rest.foldl (fun m q => min m q.1) p.1,
     rest.foldl (fun m q => min m q.2) p.2,
     rest.foldl (fun m q => max m q.1) p.1,
     rest.foldl (fun m q => max m q.2) p.2)

/-- `bbox_intersects` of `geometry_utils.py`. -/
def bbox_intersects (box1 box2 : ℚ × ℚ × ℚ × ℚ) : Bool :=
  if box1.2.2.1 < box2.1 ∨ box2.2.2.1 < box1.1 ∨
     box1.2.2.2 < box2.2.1 ∨ box2.2.2.2 < box1.2.1 then false
  else true

/-! ## 5-decimal rounding (the `f"{x:.5f}"` / `float` round-trip) -/

/-- Floor of a rational, executably (`Rat.floor` semantics). -/
def ratFloor (q : ℚ) : ℤ := q.num / (q.den : ℤ)

/-- Round a rational to the nearest integer, ties to even (the rounding used
by Python's fixed-point float formatting). -/
def roundHalfEven (q : ℚ) : ℤ :=
  let f := ratFloor q
  let r := q - f
  if r < 1 / 2 then f
  else if 1 / 2 < r then f + 1
  else if f % 2 = 0 then f else f + 1

/-- Rounding to 5 decimal places: the value denoted by `f"{x:.5f}"` after
parsing back. -/
def round5 (q : ℚ) : ℚ := (roundHalfEven (q * 100000) : ℚ) / 100000

/-- A `(lon, lat)` coordinate as written into (and parsed back from) the
`f"{lon:.5f},{lat:.5f}"` strings of `_inject_portals`. -/
def roundPair (c : ℚ × ℚ) : ℚ × ℚ := (round5 c.1, round5 c.2)

/-! ## Name matching (`p_name.lower() in name.lower()`) -/

/-- ASCII lowering of one character (model of `str.lower` on ASCII input). -/
def lowerChar (c : Char) : Char :=
  if 'A' ≤ c ∧ c ≤ 'Z' then Char.ofNat (c.toNat + 32) else c

/-- `needle` occurs contiguously inside `hay` (Python's `in` on strings). -/
def containsSeq (hay needle : List Char) : Bool :=
  match hay with
  | [] => needle.isEmpty
  | _ :: t => needle.isPrefixOf hay || containsSeq t needle

/-- `p_name.lower() in name.lower()`: case-insensitive substring test. -/
def nameMatches (portalKey stopName : String) : Bool :=
  containsSeq (stopName.data.map lowerChar) (portalKey.data.map lowerChar)

/-! ## Data model (`config_loader.py` documents, request stops) -/

/-- A portal gate coordinate (`{lat, lon}` in `portals.json`). -/
structure Gate where
  lat : ℚ
  lon : ℚ
deriving DecidableEq

/-- A portal rule from `portals.json`: `type` plus the two gates. -/
structure Portal where
  ptype : String
  entry_gate : Gate
  exit_gate : Gate
deriving DecidableEq

/-- A request stop (`{name, lat, lon}`). -/
structure Stop where
  name : String
  lat : ℚ
  lon : ℚ
deriving DecidableEq

/-- A zone from `zones.json`: id, name, rule and polygon (`(lat, lon)`). -/
structure Zone where
  id : String
  zname : String
  rule : String
  geometry : List (ℚ × ℚ)
deriving DecidableEq

/-- Portal configuration: the `portals.json` mapping as an ordered
association list (Python dict iteration order). -/
abbrev Portals := List (String × Portal)

/-- The engine's fuzzy portal match: first `(p_name, p_config)` in iteration
order with `p_name.lower() in name.lower()`. -/
def findPortal (portals : Portals) (name : String) : Option Portal :=
  (List.find? (fun p => nameMatches p.1 name) portals).map Prod.snd

/-- The allowed-check of `_validate_stops_access`: some portal key matches the
stop name. -/
def portalAllowed (portals : Portals) (name : String) : Bool :=
  portals.any (fun p => nameMatches p.1 name)

/-! ## CoordinateTransformer (`RoutingEngine._inject_portals`) -/

def STRATEGY_PORTALS_ONLY : String := "PORTALS_ONLY"

def STRATEGY_PLUS_CITY : String := "PORTALS_PLUS_CITY"

def STRATEGY_PLUS_HIGHWAY : String := "PORTALS_PLUS_HIGHWAY"

/-- The coordinates (as `(lon, lat)` pairs, already rounded by the `:.5f`
formatting) appended for the stop at index `i` of an `n`-stop request: the
body of the `for i, stop in enumerate(stops)` loop of `_inject_portals`. -/
def stopContribution (portals : Portals) (n i : ℕ) (s : Stop) : List (ℚ × ℚ) :=
  match findPortal portals s.name with
  | some portal =>
    if i = 0 then
      if portal.ptype = "ACCESS_CONTROLLED_STOP" then
        [roundPair (portal.exit_gate.lon, portal.exit_gate.lat)]
      else [roundPair (s.lon, s.lat)]
    else if i = n - 1 then
      if portal.ptype = "ACCESS_CONTROLLED_STOP" then
        [roundPair (portal.entry_gate.lon, portal.entry_gate.lat)]
      else [roundPair (s.lon, s.lat)]
    else
      if portal.ptype = "ACCESS_CONTROLLED_STOP" then
        [roundPair (portal.entry_gate.lon, portal.entry_gate.lat)]
      else [roundPair (portal.entry_gate.lon, portal.entry_gate.lat),
            roundPair (s.lon, s.lat),
            roundPair (portal.exit_gate.lon, portal.exit_gate.lat)]
  | none => [roundPair (s.lon, s.lat)]

/-- Python's `list.insert(i, x)`: insert at index `i`, clamped to the ends. -/
def insertClamped (i : ℕ) (x : α) (l : List α) : List α :=
  l.take i ++ x :: l.drop i

/-- The per-stop transformed coordinate list of `_inject_portals`, before
strategy augmentation. -/
def transformedCoords (portals : Portals) (stops : List Stop) : List (ℚ × ℚ) :=
  stops.enum.flatMap (fun p => stopContribution portals stops.length p.1 p.2)

/-- The Palayam via point `"75.78800,11.25200"` as a `(lon, lat)` value. -/
def viaPalayam : ℚ × ℚ := (75.788, 11.252)

/-- The Bypass via point `"75.82000,11.27000"` as a `(lon, lat)` value. -/
def viaBypass : ℚ × ℚ := (75.82, 11.27)

/-- `_inject_portals`: per-stop transformation then strategy augmentation;
returns the final `(lon, lat)` list sent to OSRM. -/
def injectPortals (portals : Portals) (stops : List Stop) (strategy : String) :
    List (ℚ × ℚ) :=
  let transformed := transformedCoords portals stops
  if strategy = STRATEGY_PLUS_CITY then
    insertClamped (max 1 (transformed.length / 2)) viaPalayam transformed
  else if strategy = STRATEGY_PLUS_HIGHWAY then
    insertClamped (max 1 (transformed.length / 2)) viaBypass transformed
  else transformed

/-! ## ResultCache (`cache.py`, class `LTRUCache`) -/

/-- Association-list lookup (Python `dict` access). -/
def alLookup [DecidableEq κ] (l : List (κ × β)) (k : κ) : Option β :=
  match l with
  | [] => none
  | (k', b) :: t => if k' = k then some b else alLookup t k

/-- Dict update of an existing key (value replaced in place; dict keys are
unique, so at most one entry matches). -/
def alReplace [DecidableEq κ] : List (κ × β) → κ → β → List (κ × β)
  | [], _, _ => []
  | (k', v) :: t, k, b =>
    if k' = k then (k, b) :: alReplace t k b else (k', v) :: alReplace t k b

/-- Python `d[k] = b`: replace if present, else append. -/
def alInsert [DecidableEq κ] (l : List (κ × β)) (k : κ) (b : β) : List (κ × β) :=
  if (alLookup l k).isSome then alReplace l k b else l ++ [(k, b)]

/-- Python `del d[k]` (dict keys are unique). -/
def alErase [DecidableEq κ] (l : List (κ × β)) (k : κ) : List (κ × β) :=
  l.filter (fun p => p.1 ≠ k)

/-- The `LTRUCache` state: `cache` maps keys to `(config_hash, value, expiry)`
and `order` is the LRU recency list (least recent first). -/
structure LTRUCache (κ α : Type) where
  capacity : ℕ
  defaultTtl : ℚ
  entries : List (κ × String × α × ℚ)
  order : List κ

/-- `LTRUCache(capacity, default_ttl)`: the freshly constructed cache. -/
def LTRUCache.empty (κ α : Type) (capacity : ℕ) (defaultTtl : ℚ) : LTRUCache κ α :=
  ⟨capacity, defaultTtl, [], []⟩

/-- `LTRUCache._remove`. -/
def LTRUCache.removeKey [DecidableEq κ] (c : LTRUCache κ α) (key : κ) :
    LTRUCache κ α :=
  { c with entries := alErase c.entries key, order := c.order.erase key }

/-- `LTRUCache.get(key, config_hash)` at time `now`: returns the value (or
`none`) together with the updated cache state. -/
def LTRUCache.get [DecidableEq κ] (c : LTRUCache κ α) (key : κ)
    (configHash : String) (now : ℚ) : Option α × LTRUCache κ α :=
  match alLookup c.entries key with
  | some (storedHash, value, expiry) =>
    if now > expiry then (none, c.removeKey key)
    else if storedHash ≠ configHash then (none, c.removeKey key)
    else (some value, { c with order := c.order.erase key ++ [key] })
  | none => (none, c)

/-- `LTRUCache.set(key, value, config_hash, ttl)` at time `now`; `ttl = none`
models Python's `ttl=None` (which falls back to the default TTL). -/
def LTRUCache.set [DecidableEq κ] (c : LTRUCache κ α) (key : κ) (value : α)
    (configHash : String) (ttl : Option ℚ) (now : ℚ) : LTRUCache κ α :=
  let t := ttl.getD c.defaultTtl
  let entries := alInsert c.entries key (configHash, value, now + t)
  let order := c.order.erase key ++ [key]
  if order.length > c.capacity then
    { c with entries := alErase entries (order.headD key), order := order.tail }
  else { c with entries := entries, order := order }

/-- One external cache operation, for stating state invariants over arbitrary
usage traces. -/
inductive CacheOp (κ α : Type) where
  | get (key : κ) (configHash : String) (now : ℚ)
  | set (key : κ) (value : α) (configHash : String) (ttl : Option ℚ) (now : ℚ)

/-- Apply one operation to the cache state. -/
def applyCacheOp [DecidableEq κ] (c : LTRUCache κ α) :
    CacheOp κ α → LTRUCache κ α
  | .get key h now => (c.get key h now).2
  | .set key v h ttl now => c.set key v h ttl now

/-- Run a trace of operations from a given state. -/
def runCacheOps [DecidableEq κ] (c : LTRUCache κ α) (ops : List (CacheOp κ α)) :
    LTRUCache κ α :=
  ops.foldl applyCacheOp c

/-! ## UpstreamRouteClient (`client.py`, class `OSRMClient`) -/

inductive CircuitSt where
  | closed
  | opened
  | halfOpen
deriving DecidableEq

/-- The mutable state of `OSRMClient` (the concurrency semaphore is not
modelled; it does not interact with the circuit logic). -/
structure ClientState where
  state : CircuitSt
  failures : ℕ
  lastFailureTime : ℚ
  failureThreshold : ℕ
  cooldown : ℚ
deriving DecidableEq

/-- `OSRMClient()` with the default `failure_threshold=3`, `cooldown=30`. -/
def initClient : ClientState :=
  { state := .closed, failures := 0, lastFailureTime := 0,
    failureThreshold := 3, cooldown := 30 }

/-- What the one HTTP request of `get_route` does, supplied as an oracle:
an HTTP response (status code and parsed JSON body) or a network-level
`requests` exception. -/
inductive HttpOutcome (α : Type) where
  | response (status : ℕ) (body : α)
  | netError (msg : String)
deriving DecidableEq

/-- The errors `get_route` can raise. -/
inductive ClientErr where
  | circuitOpen
  | serverError (status : ℕ)
  | connectionError (msg : String)
deriving DecidableEq

/-- Result of one `get_route` call: new client state, returned value or
raised error, and whether the network was hit at all. -/
structure GetRouteResult (α : Type) where
  newState : ClientState
  result : Except ClientErr α
  networkCalled : Bool

/-- `OSRMClient._record_failure` at time `now`. -/
def recordFailure (c : ClientState) (now : ℚ) : ClientState :=
  let f := c.failures + 1
  { c with failures := f, lastFailureTime := now,
           state := if f ≥ c.failureThreshold then .opened else c.state }

/-- `OSRMClient._reset_circuit`. -/
def resetCircuit (c : ClientState) : ClientState :=
  { c with state := .closed, failures := 0 }

/-- The `try` block of `get_route`: the request is issued and its outcome
classified (5xx → circuit failure, otherwise the JSON body is returned;
network error → circuit failure). -/
def performCall (c : ClientState) (now : ℚ) (outcome : HttpOutcome α) :
    GetRouteResult α :=
  match outcome with
  | .response status body =>
    if status ≥ 500 then ⟨recordFailure c now, .error (.serverError status), true⟩
    else ⟨resetCircuit c, .ok body, true⟩
  | .netError msg => ⟨recordFailure c now, .error (.connectionError msg), true⟩

/-- `OSRMClient.get_route` at time `now` with the given network outcome. -/
def getRoute (c : ClientState) (now : ℚ) (outcome : HttpOutcome α) :
    GetRouteResult α :=
  if c.state = .opened then
    if now - c.lastFailureTime > c.cooldown then
      performCall { c with state := .halfOpen } now outcome
    else ⟨c, .error .circuitOpen, false⟩
  else performCall c now outcome

/-- Fold a sequence of timed call outcomes through the client. -/
def clientRun (c : ClientState) (steps : List (ℚ × HttpOutcome α)) : ClientState :=
  steps.foldl (fun st step => (getRoute st step.1 step.2).newState) c

/-- An outcome that `get_route` counts as a circuit failure: HTTP 5xx or a
network-level error. -/
def isFailureOutcome (o : HttpOutcome α) : Bool :=
  match o with
  | .response status _ => status ≥ 500
  | .netError _ => true

/-! ## RouteBroker (`engine.py`, class `RoutingEngine`) -/

/-- The per-stop body of the `_validate_stops_access` loop over a fixed
restricted-zone polygon: first offending stop raises. -/
def checkStopsAccess (portals : Portals) (polygon : List (ℚ × ℚ)) :
    List Stop → Except String Unit
  | [] => .ok ()
  | s :: rest =>
    if portalAllowed portals s.name then checkStopsAccess portals polygon rest
    else if point_in_polygon (s.lat, s.lon) polygon then
      .error ("CRITICAL CONFIG ERROR: Stop " ++ s.name ++
        " is physically inside the Restricted Beach Road Zone but has no Access Rule defined in portals.json.")
    else checkStopsAccess portals polygon rest

/-- `RoutingEngine._validate_stops_access`: only the zone with id
`ZONE_BEACH_RD` is consulted; if it is absent the check is skipped. -/
def validateStopsAccess (zones : List Zone) (portals : Portals)
    (stops : List Stop) : Except String Unit :=
  match zones.find? (fun z => z.id = "ZONE_BEACH_RD") with
  | none => .ok ()
  | some beachZone => checkStopsAccess portals beachZone.geometry stops

/-- The v9 zone-scoped strategy selection of `get_optimized_route`. -/
def chooseStrategies (zones : List Zone) (stops : List Stop) : List String :=
  let base := [STRATEGY_PORTALS_ONLY]
  match zones.find? (fun z => z.id = "ZONE_BEACH_RD") with
  | none => base
  | some beachZone =>
    let stopsBbox := get_bbox (stops.map fun s => (s.lat, s.lon))
    let zoneBbox := get_bbox beachZone.geometry
    if bbox_intersects stopsBbox zoneBbox then
      [STRATEGY_PLUS_HIGHWAY, STRATEGY_PLUS_CITY] ++ base
    else base

/-- `sorted(stops, key=lambda s: float(s['lat']), reverse=True)`: the stable
descending-by-latitude sort of the v9.3 normalization step. -/
def sortStopsByLatPDesc (stops : List Stop) : List Stop :=
  List.insertionSort (fun a b => b.lat ≤ a.lat) stops

/-- A cached payload: `{'data': ...}` (positive) or `{'error': reason}`
(negative). -/
inductive CacheVal (α : Type) where
  | dataE (route : α)
  | errE (reason : String)
deriving DecidableEq

/-- The inputs of `_get_cache_key` (`md5` over their serialization is
modelled by the tuple itself): sorted stops, strategy, config hash. -/
def BrokerKey : Type := List Stop × String × String

instance : DecidableEq BrokerKey := by
  unfold BrokerKey
  exact inferInstance

/-- The broker cache instantiated at the engine's key/value types. -/
def BrokerCache (α : Type) : Type := LTRUCache BrokerKey (CacheVal α)

/-- `LTRUCache(capacity=200)` as constructed by `RoutingEngine.__init__`
(default TTL 300 seconds). -/
def engineFreshCache (α : Type) : BrokerCache α :=
  LTRUCache.empty BrokerKey (CacheVal α) 200 300

/-- The errors `get_optimized_route` can raise. -/
inductive BrokerErr where
  | configError (msg : String)
  | budgetExceeded
  | exhausted (lastError : String)
deriving DecidableEq

/-- The negative-cache TTL passed by the strategy loop (`ttl=30`). -/
def negativeCacheTtl : ℚ := 30

/-- The wall-clock budget of the strategy loop (`TIME_BUDGET = 8.0`). -/
def timeBudget : ℚ := 8

/-- The strategy loop of `get_optimized_route`.

Arguments: `client k coords` is the outcome of the `k`-th upstream
`get_route` call (exceptions as `.error`); `validate` is
`RouteValidator.validate`; `times i` is the `time.time()` sample taken in
iteration `i` (used for the budget check and the cache operations of that
iteration); `t0` is `start_time`. The state threaded through the loop is
(remaining strategies, cache, `last_error`, upstream calls made so far,
iteration index). Returns (outcome, final cache, number of upstream calls). -/
def strategyLoop (portals : Portals) (cfgHash : String) (stops : List Stop)
    (client : ℕ → List (ℚ × ℚ) → Except String α) (validate : α → Bool × String)
    (times : ℕ → ℚ) (t0 : ℚ) :
    List String → BrokerCache α → String → ℕ → ℕ →
    Except BrokerErr α × BrokerCache α × ℕ
  | [], cache, lastError, calls, _ =>
    (.error (.exhausted lastError), cache, calls)
  | strategy :: rest, cache, lastError, calls, iter =>
    if times iter - t0 > timeBudget then (.error .budgetExceeded, cache, calls)
    else
      match LTRUCache.get cache (stops, strategy, cfgHash) cfgHash
          (times iter) with
      | (some (.errE _), cache') =>
        strategyLoop portals cfgHash stops client validate times t0
          rest cache' lastError calls (iter + 1)
      | (some (.dataE route), cache') => (.ok route, cache', calls)
      | (none, cache') =>
        match client calls (injectPortals portals stops strategy) with
        | .error msg =>
          strategyLoop portals cfgHash stops client validate times t0
            rest cache' msg (calls + 1) (iter + 1)
        | .ok route =>
          match validate route with
          | (true, _) =>
            (.ok route,
             LTRUCache.set cache' (stops, strategy, cfgHash) (.dataE route)
               cfgHash none (times iter),
             calls + 1)
          | (false, reason) =>
            strategyLoop portals cfgHash stops client validate times t0
              rest
              (LTRUCache.set cache' (stops, strategy, cfgHash) (.errE reason)
                cfgHash (some negativeCacheTtl) (times iter))
              reason (calls + 1) (iter + 1)

/-- `RoutingEngine.get_optimized_route`: normalize (sort), precheck, select
strategies, run the strategy loop. Returns (outcome, final cache, number of
upstream calls made). -/
def getOptimizedRoute (zones : List Zone) (portals : Portals) (cfgHash : String)
    (stopsPayload : List Stop) (client : ℕ → List (ℚ × ℚ) → Except String α)
    (validate : α → Bool × String) (times : ℕ → ℚ) (t0 : ℚ)
    (cache0 : BrokerCache α) : Except BrokerErr α × BrokerCache α × ℕ :=
  match validateStopsAccess zones portals (sortStopsByLatPDesc stopsPayload) with
  | .error msg => (.error (.configError msg), cache0, 0)
  | .ok _ =>
    strategyLoop portals cfgHash (sortStopsByLatPDesc stopsPayload) client
      validate times t0
      (chooseStrategies zones (sortStopsByLatPDesc stopsPayload))
      cache0 "Unknown Error" 0 0

/-! ## Association-list lemmas -/

theorem alLookup_alErase_self [DecidableEq κ] (l : List (κ × β)) (k : κ) :
    alLookup (alErase l k) k = none := by
  induction l with
  | nil => rfl
  | cons p t ih =>
    obtain ⟨a, b⟩ := p
    by_cases h : a = k
    · subst h; simpa [alErase, List.filter_cons] using ih
    · simpa [alErase, List.filter_cons, h, alLookup] using ih

theorem alLookup_alErase_ne [DecidableEq κ] (l : List (κ × β)) (k k' : κ)
    (h : k' ≠ k) : alLookup (alErase l k) k' = alLookup l k' := by
  induction l with
  | nil => rfl
  | cons p t ih =>
    obtain ⟨a, b⟩ := p
    by_cases hp : a = k
    · subst hp
      have hne : ¬ a = k' := fun e => h e.symm
      simp only [alErase, List.filter_cons] at ih ⊢
      simpa [alLookup, hne] using ih
    · simp only [alErase, List.filter_cons] at ih ⊢
      by_cases hp' : a = k'
      · subst hp'
        simp [alLookup, hp]
      · simpa [alLookup, hp, hp'] using ih

theorem alLookup_alReplace_self [DecidableEq κ] (l : List (κ × β)) (k : κ)
    (b : β) (h : (alLookup l k).isSome) :
    alLookup (alReplace l k b) k = some b := by
  induction l with
  | nil => simp [alLookup] at h
  | cons p t ih =>
    obtain ⟨a, c⟩ := p
    by_cases hp : a = k
    · subst hp; simp [alReplace, alLookup]
    · have h' : (alLookup t k).isSome := by simpa [alLookup, hp] using h
      simpa [alReplace, alLookup, hp] using ih h'

theorem alLookup_alReplace_ne [DecidableEq κ] (l : List (κ × β)) (k k' : κ)
    (b : β) (h : k' ≠ k) :
    alLookup (alReplace l k b) k' = alLookup l k' := by
  induction l with
  | nil => rfl
  | cons p t ih =>
    obtain ⟨a, c⟩ := p
    by_cases hp : a = k
    · subst hp
      have hne : ¬ a = k' := fun e => h e.symm
      simpa [alReplace, alLookup, hne] using ih
    · by_cases hp' : a = k'
      · subst hp'
        simp [alReplace, alLookup, hp]
      · simpa [alReplace, alLookup, hp, hp'] using ih

theorem alLookup_append_of_none [DecidableEq κ] (l l' : List (κ × β)) (k : κ)
    (h : alLookup l k = none) :
    alLookup (l ++ l') k = alLookup l' k := by
  induction l with
  | nil => rfl
  | cons p t ih =>
    obtain ⟨a, c⟩ := p
    by_cases hp : a = k
    · subst hp; simp [alLookup] at h
    · have h' : alLookup t k = none := by simpa [alLookup, hp] using h
      simpa [alLookup, hp] using ih h'

theorem alLookup_alInsert_self [DecidableEq κ] (l : List (κ × β)) (k : κ)
    (b : β) : alLookup (alInsert l k b) k = some b := by
  unfold alInsert
  by_cases h : (alLookup l k).isSome
  · simp [h, alLookup_alReplace_self l k b h]
  · have hn : alLookup l k = none := by
      cases hx : alLookup l k with
      | none => rfl
      | some v => rw [hx] at h; simp at h
    simp [h, alLookup_append_of_none l _ k hn, alLookup]

theorem alLookup_append_of_some [DecidableEq κ] (l l' : List (κ × β)) (k : κ)
    (v : β) (h : alLookup l k = some v) :
    alLookup (l ++ l') k = some v := by
  induction l with
  | nil => simp [alLookup] at h
  | cons p t ih =>
    obtain ⟨a, c⟩ := p
    by_cases hp : a = k
    · subst hp
      simpa [alLookup] using by simpa [alLookup] using h
    · have h' : alLookup t k = some v := by simpa [alLookup, hp] using h
      simpa [alLookup, hp] using ih h'

theorem alLookup_alInsert_ne [DecidableEq κ] (l : List (κ × β)) (k k' : κ)
    (b : β) (h : k' ≠ k) :
    alLookup (alInsert l k b) k' = alLookup l k' := by
  unfold alInsert
  by_cases hs : (alLookup l k).isSome
  · simp [hs, alLookup_alReplace_ne l k k' b h]
  · have hk : ¬ k = k' := fun e => h e.symm
    rw [if_neg hs]
    cases hx : alLookup l k' with
    | some v => exact alLookup_append_of_some l _ k' v hx
    | none =>
      rw [alLookup_append_of_none l _ k' hx]
      simp [alLookup, hk, hx]

/-! ## Cache `get` behaviour -/

theorem cacheGet_of_lookup_none [DecidableEq κ] (c : LTRUCache κ α) (key : κ)
    (h : String) (now : ℚ) (hx : alLookup c.entries key = none) :
    c.get key h now = (none, c) := by
  unfold LTRUCache.get
  rw [hx]

theorem cacheGet_hit [DecidableEq κ] (c : LTRUCache κ α) (key : κ)
    (h : String) (now : ℚ) (v : α) (exp : ℚ)
    (hx : alLookup c.entries key = some (h, v, exp)) (hexp : ¬ now > exp) :
    c.get key h now = (some v, { c with order := c.order.erase key ++ [key] }) := by
  unfold LTRUCache.get
  rw [hx]
  simp [hexp]

theorem cacheGet_expired [DecidableEq κ] (c : LTRUCache κ α) (key : κ)
    (h sh : String) (now : ℚ) (v : α) (exp : ℚ)
    (hx : alLookup c.entries key = some (sh, v, exp)) (hexp : now > exp) :
    c.get key h now = (none, c.removeKey key) := by
  unfold LTRUCache.get
  rw [hx]
  simp [hexp]

theorem cacheGet_hashMismatch [DecidableEq κ] (c : LTRUCache κ α) (key : κ)
    (h sh : String) (now : ℚ) (v : α) (exp : ℚ)
    (hx : alLookup c.entries key = some (sh, v, exp)) (hexp : ¬ now > exp)
    (hsh : sh ≠ h) :
    c.get key h now = (none, c.removeKey key) := by
  unfold LTRUCache.get
  rw [hx]
  simp [hexp, hsh]

/-- C5 (amended): `LTRUCache.get(key, hash)` at time `now` returns the stored
value iff an entry exists whose stored hash equals `hash` and whose expiry has
not yet strictly passed (`now ≤ expiry`; the code misses only at `now >
expiry`, so a lookup exactly at the expiry instant still hits — this is the one
divergence from the claim's strict "before expiry"). An entry that is expired
or carries a different config hash is removed and a miss is reported; a hit
moves the key to the most-recently-used end and leaves the entry map unchanged,
so an immediate second `get` returns the same payload; a hash change misses
even before expiry. -/
theorem c5_cache_get_semantics [DecidableEq κ]
    (c : LTRUCache κ α) (key : κ) (h : String) (now : ℚ) :
    (∀ v : α, (c.get key h now).1 = some v ↔
      ∃ exp, alLookup c.entries key = some (h, v, exp) ∧ now ≤ exp) ∧
    (∀ (sh : String) (v : α) (exp : ℚ),
      alLookup c.entries key = some (sh, v, exp) → (now > exp ∨ sh ≠ h) →
      (c.get key h now).1 = none ∧
      alLookup (c.get key h now).2.entries key = none) ∧
    (∀ v : α, (c.get key h now).1 = some v →
      (c.get key h now).2.order = c.order.erase key ++ [key] ∧
      (c.get key h now).2.entries = c.entries) ∧
    (∀ v : α, (c.get key h now).1 = some v →
      ((c.get key h now).2.get key h now).1 = some v) ∧
    (∀ (v : α) (exp : ℚ) (h' : String),
      alLookup c.entries key = some (h, v, exp) → h' ≠ h →
      (c.get key h' now).1 = none) := by
  have hit_inv : ∀ v : α, (c.get key h now).1 = some v →
      ∃ exp, alLookup c.entries key = some (h, v, exp) ∧ now ≤ exp := by
    intro v hv
    cases hx : alLookup c.entries key with
    | none => rw [cacheGet_of_lookup_none c key h now hx] at hv; simp at hv
    | some e =>
      obtain ⟨sh, v', exp⟩ := e
      by_cases hexp : now > exp
      · rw [cacheGet_expired c key h sh now v' exp hx hexp] at hv; simp at hv
      · by_cases hsh : sh = h
        · subst hsh
          rw [cacheGet_hit c key sh now v' exp hx hexp] at hv
          have hv' : v' = v := by simpa using hv
          subst hv'
          exact ⟨exp, rfl, le_of_not_lt hexp⟩
        · rw [cacheGet_hashMismatch c key h sh now v' exp hx hexp hsh] at hv
          simp at hv
  refine ⟨?_, ?_, ?_, ?_, ?_⟩
  · intro v
    constructor
    · exact hit_inv v
    · rintro ⟨exp, hx, hle⟩
      rw [cacheGet_hit c key h now v exp hx (not_lt.mpr hle)]
  · intro sh v exp hx hbad
    rcases hbad with hexp | hsh
    · rw [cacheGet_expired c key h sh now v exp hx hexp]
      exact ⟨rfl, alLookup_alErase_self _ _⟩
    · by_cases hexp : now > exp
      · rw [cacheGet_expired c key h sh now v exp hx hexp]
        exact ⟨rfl, alLookup_alErase_self _ _⟩
      · rw [cacheGet_hashMismatch c key h sh now v exp hx hexp hsh]
        exact ⟨rfl, alLookup_alErase_self _ _⟩
  · intro v hv
    obtain ⟨exp, hx, hle⟩ := hit_inv v hv
    rw [cacheGet_hit c key h now v exp hx (not_lt.mpr hle)]
    exact ⟨rfl, rfl⟩
  · intro v hv
    obtain ⟨exp, hx, hle⟩ := hit_inv v hv
    rw [cacheGet_hit c key h now v exp hx (not_lt.mpr hle)]
    have hx' : alLookup ({ c with order := c.order.erase key ++ [key] } :
        LTRUCache κ α).entries key = some (h, v, exp) := hx
    rw [cacheGet_hit _ key h now v exp hx' (not_lt.mpr hle)]
  · intro v exp h' hx hne
    by_cases hexp : now > exp
    · rw [cacheGet_expired c key h' h now v exp hx hexp]
    · rw [cacheGet_hashMismatch c key h' h now v exp hx hexp (fun e => hne e.symm)]

/-- The concrete cache used to refute the strict reading of C5: one entry
stored at time 0 with TTL 5 (so its expiry is exactly 5). -/
def c5cache : LTRUCache String String :=
  (LTRUCache.empty String String 100 300).set "k" "v" "h" (some 5) 0

/-- C5 counterexample: at `now = 5` — not strictly before the expiry 5 — the
code still returns the stored value, so "hit iff now is before expiry" is
false as stated. -/
theorem c5_counterexample :
    alLookup c5cache.entries "k" = some ("h", "v", 5) ∧
    (c5cache.get "k" "h" 5).1 = some "v" ∧ ¬ ((5 : ℚ) < 5) := by
  refine ⟨by decide, by decide, by decide⟩

/-- Witness for `c5_cache_get_semantics` at the concrete cache `c5cache`. -/
theorem c5_cache_get_semantics_witness :
    ((c5cache.get "k" "h" 5).1 = some "v" ↔
      ∃ exp, alLookup c5cache.entries "k" = some ("h", "v", exp) ∧ (5:ℚ) ≤ exp) ∧
    ((c5cache.get "k" "bad" 5).1 = none ∧
      alLookup (c5cache.get "k" "bad" 5).2.entries "k" = none) ∧
    ((c5cache.get "k" "h" 5).2.order = c5cache.order.erase "k" ++ ["k"]) ∧
    (((c5cache.get "k" "h" 5).2.get "k" "h" 5).1 = some "v") ∧
    ((c5cache.get "k" "x" 5).1 = none) := by
  refine ⟨(c5_cache_get_semantics c5cache "k" "h" 5).1 "v",
    (c5_cache_get_semantics c5cache "k" "bad" 5).2.1 "h" "v" 5 (by decide)
      (Or.inr (by decide)),
    ((c5_cache_get_semantics c5cache "k" "h" 5).2.2.1 "v" (by decide)).1,
    (c5_cache_get_semantics c5cache "k" "h" 5).2.2.2.1 "v" (by decide),
    (c5_cache_get_semantics c5cache "k" "h" 5).2.2.2.2 "v" 5 "x" (by decide)
      (by decide)⟩

/-! ## Cache state invariants -/

theorem alLookup_isSome_iff_mem [DecidableEq κ] (l : List (κ × β)) (k : κ) :
    (alLookup l k).isSome ↔ k ∈ l.map Prod.fst := by
  induction l with
  | nil => simp [alLookup]
  | cons p t ih =>
    obtain ⟨a, b⟩ := p
    by_cases hp : a = k
    · subst hp; simp [alLookup]
    · have hka : ¬ k = a := fun e => hp e.symm
      simp only [alLookup, hp, if_false, List.map_cons, List.mem_cons]
      rw [ih]
      simp [hka]

theorem alReplace_keys [DecidableEq κ] (l : List (κ × β)) (k : κ) (b : β) :
    (alReplace l k b).map Prod.fst = l.map Prod.fst := by
  induction l with
  | nil => rfl
  | cons p t ih =>
    obtain ⟨a, c⟩ := p
    by_cases hp : a = k
    · subst hp; simp [alReplace, ih]
    · simp [alReplace, hp, ih]

theorem alInsert_keys_of_isSome [DecidableEq κ] (l : List (κ × β)) (k : κ)
    (b : β) (h : (alLookup l k).isSome) :
    (alInsert l k b).map Prod.fst = l.map Prod.fst := by
  unfold alInsert
  rw [if_pos h]
  exact alReplace_keys l k b

theorem alInsert_keys_of_none [DecidableEq κ] (l : List (κ × β)) (k : κ)
    (b : β) (h : ¬ (alLookup l k).isSome) :
    (alInsert l k b).map Prod.fst = l.map Prod.fst ++ [k] := by
  unfold alInsert
  rw [if_neg h]
  simp

theorem alErase_keys_sublist [DecidableEq κ] (l : List (κ × β)) (k : κ) :
    List.Sublist ((alErase l k).map Prod.fst) (l.map Prod.fst) :=
  (List.filter_sublist l).map Prod.fst

theorem alErase_length_lt [DecidableEq κ] (l : List (κ × β)) (k : κ)
    (h : k ∈ l.map Prod.fst) : (alErase l k).length < l.length := by
  rw [alErase, List.length_filter_lt_length_iff_exists]
  simp only [List.mem_map] at h
  obtain ⟨p, hp, hk⟩ := h
  exact ⟨p, hp, by simp [hk]⟩

/-- The internal consistency of an `LTRUCache` state. -/
def CacheInv [DecidableEq κ] (c : LTRUCache κ α) : Prop :=
  c.order.Nodup ∧ (c.entries.map Prod.fst).Nodup ∧
  (∀ k, k ∈ c.order ↔ (alLookup c.entries k).isSome) ∧
  c.order.length ≤ c.capacity

theorem CacheInv.entries_length [DecidableEq κ] {c : LTRUCache κ α}
    (h : CacheInv c) : c.entries.length = c.order.length := by
  obtain ⟨ho, hk, hm, _⟩ := h
  have : (c.entries.map Prod.fst).length = c.order.length := by
    refine List.Perm.length_eq (List.perm_of_nodup_nodup_toFinset_eq hk ho ?_)
    ext a
    simp only [List.mem_toFinset]
    rw [← alLookup_isSome_iff_mem, ← hm a]
  simpa using this

theorem CacheInv.empty [DecidableEq κ] (cap : ℕ) (ttl : ℚ) :
    CacheInv (LTRUCache.empty κ α cap ttl) := by
  refine ⟨List.nodup_nil, List.nodup_nil, ?_, by simp [LTRUCache.empty]⟩
  intro k
  simp [LTRUCache.empty, alLookup]

theorem CacheInv.removeKey [DecidableEq κ] {c : LTRUCache κ α}
    (h : CacheInv c) (k : κ) : CacheInv (c.removeKey k) := by
  obtain ⟨ho, hk, hm, hc⟩ := h
  refine ⟨ho.erase k, (alErase_keys_sublist c.entries k).nodup hk, ?_, ?_⟩
  · intro x
    show x ∈ c.order.erase k ↔ (alLookup (alErase c.entries k) x).isSome
    rw [ho.mem_erase_iff]
    constructor
    · rintro ⟨hxk, hx⟩
      rw [alLookup_alErase_ne c.entries k x hxk]
      exact (hm x).1 hx
    · intro hx
      by_cases hxk : x = k
      · subst hxk
        rw [alLookup_alErase_self c.entries x] at hx
        simp at hx
      · refine ⟨hxk, (hm x).2 ?_⟩
        rwa [alLookup_alErase_ne c.entries k x hxk] at hx
  · show (c.order.erase k).length ≤ c.capacity
    exact le_trans (List.length_erase_le _ _) hc

theorem CacheInv.get [DecidableEq κ] {c : LTRUCache κ α}
    (h : CacheInv c) (key : κ) (cfg : String) (now : ℚ) :
    CacheInv (c.get key cfg now).2 := by
  obtain ⟨ho, hk, hm, hc⟩ := h
  cases hx : alLookup c.entries key with
  | none =>
    rw [cacheGet_of_lookup_none c key cfg now hx]
    exact ⟨ho, hk, hm, hc⟩
  | some e =>
    obtain ⟨sh, v, exp⟩ := e
    by_cases hexp : now > exp
    · rw [cacheGet_expired c key cfg sh now v exp hx hexp]
      exact CacheInv.removeKey ⟨ho, hk, hm, hc⟩ key
    · by_cases hsh : sh = cfg
      · subst hsh
        rw [cacheGet_hit c key sh now v exp hx hexp]
        have hkey : key ∈ c.order := (hm key).2 (by simp [hx])
        have hnotin : key ∉ c.order.erase key := by
          intro hmem
          exact ((ho.mem_erase_iff).1 hmem).1 rfl
        refine ⟨?_, hk, ?_, ?_⟩
        · show (c.order.erase key ++ [key]).Nodup
          simp [List.nodup_append, ho.erase key, hnotin]
        · intro x
          show x ∈ c.order.erase key ++ [key] ↔ (alLookup c.entries x).isSome
          simp only [List.mem_append, List.mem_singleton, ho.mem_erase_iff]
          constructor
          · rintro (⟨hxk, hx'⟩ | rfl)
            · exact (hm x).1 hx'
            · simp [hx]
          · intro hx'
            by_cases hxk : x = key
            · exact Or.inr hxk
            · exact Or.inl ⟨hxk, (hm x).2 hx'⟩
        · show (c.order.erase key ++ [key]).length ≤ c.capacity
          rw [List.length_append, List.length_erase_of_mem hkey]
          simp only [List.length_singleton]
          have : 0 < c.order.length := List.length_pos_of_mem hkey
          omega
      · rw [cacheGet_hashMismatch c key cfg sh now v exp hx hexp hsh]
        exact CacheInv.removeKey ⟨ho, hk, hm, hc⟩ key

theorem CacheInv.set [DecidableEq κ] {c : LTRUCache κ α}
    (h : CacheInv c) (key : κ) (value : α) (cfg : String) (ttl : Option ℚ)
    (now : ℚ) : CacheInv (c.set key value cfg ttl now) := by
  obtain ⟨ho, hk, hm, hc⟩ := h
  set e1 := alInsert c.entries key (cfg, value, now + ttl.getD c.defaultTtl)
    with he1
  set o1 := c.order.erase key ++ [key] with ho1
  have hnotin : key ∉ c.order.erase key := by
    intro hmem
    exact ((ho.mem_erase_iff).1 hmem).1 rfl
  have h1o : o1.Nodup := by
    rw [ho1]; simp [List.nodup_append, ho.erase key, hnotin]
  have h1k : (e1.map Prod.fst).Nodup := by
    by_cases hs : (alLookup c.entries key).isSome
    · rw [he1, alInsert_keys_of_isSome _ _ _ hs]; exact hk
    · rw [he1, alInsert_keys_of_none _ _ _ hs]
      have : key ∉ c.entries.map Prod.fst := by
        rw [← alLookup_isSome_iff_mem]; exact hs
      simp [List.nodup_append, hk, this]
  have h1m : ∀ x, x ∈ o1 ↔ (alLookup e1 x).isSome := by
    intro x
    by_cases hxk : x = key
    · subst hxk
      rw [he1]
      simp [ho1, alLookup_alInsert_self]
    · rw [he1, alLookup_alInsert_ne _ _ _ _ hxk, ho1]
      simp only [List.mem_append, List.mem_singleton, hxk, or_false,
        ho.mem_erase_iff]
      rw [← hm x]
      simp [hxk]
  have h1len : o1.length ≤ c.capacity + 1 := by
    rw [ho1, List.length_append, List.length_singleton]
    have herl : (c.order.erase key).length ≤ c.order.length :=
      List.Sublist.length_le (List.erase_sublist _ _)
    omega
  show CacheInv (
    if o1.length > c.capacity then
      { c with entries := alErase e1 (o1.headD key), order := o1.tail }
    else { c with entries := e1, order := o1 })
  by_cases hcap : o1.length > c.capacity
  · rw [if_pos hcap]
    obtain ⟨a, t', hat⟩ : ∃ a t', o1 = a :: t' := by
      rw [ho1]
      cases hE : c.order.erase key with
      | nil => exact ⟨key, [], by simp⟩
      | cons b u => exact ⟨b, u ++ [key], by simp⟩
    have hhead : o1.headD key = a := by rw [hat]; rfl
    have htail : o1.tail = t' := by rw [hat]; rfl
    have hanotin : a ∉ t' := by
      have := h1o
      rw [hat] at this
      exact (List.nodup_cons.1 this).1
    have ht'nodup : t'.Nodup := by
      have := h1o
      rw [hat] at this
      exact (List.nodup_cons.1 this).2
    rw [hhead, htail]
    refine ⟨ht'nodup, (alErase_keys_sublist e1 a).nodup h1k, ?_, ?_⟩
    · intro x
      show x ∈ t' ↔ (alLookup (alErase e1 a) x).isSome
      by_cases hxa : x = a
      · subst hxa
        rw [alLookup_alErase_self]
        simp [hanotin]
      · rw [alLookup_alErase_ne e1 a x hxa, ← h1m x, hat]
        simp [hxa]
    · show t'.length ≤ c.capacity
      have : o1.length = t'.length + 1 := by rw [hat]; rfl
      omega
  · rw [if_neg hcap]
    refine ⟨h1o, h1k, h1m, ?_⟩
    show o1.length ≤ c.capacity
    omega

theorem applyCacheOp_capacity [DecidableEq κ] (c : LTRUCache κ α)
    (op : CacheOp κ α) : (applyCacheOp c op).capacity = c.capacity := by
  cases op with
  | get key hsh now =>
    show ((c.get key hsh now).2).capacity = c.capacity
    cases hx : alLookup c.entries key with
    | none => rw [cacheGet_of_lookup_none c key hsh now hx]
    | some e =>
      obtain ⟨sh, v, exp⟩ := e
      by_cases hexp : now > exp
      · rw [cacheGet_expired c key hsh sh now v exp hx hexp]; rfl
      · by_cases hsh' : sh = hsh
        · subst hsh'
          rw [cacheGet_hit c key sh now v exp hx hexp]
        · rw [cacheGet_hashMismatch c key hsh sh now v exp hx hexp hsh']; rfl
  | set key v hsh ttl now =>
    show (c.set key v hsh ttl now).capacity = c.capacity
    unfold LTRUCache.set
    by_cases hcap : (c.order.erase key ++ [key]).length > c.capacity
    · rw [if_pos hcap]
    · rw [if_neg hcap]

theorem CacheInv.applyOp [DecidableEq κ] {c : LTRUCache κ α}
    (h : CacheInv c) (op : CacheOp κ α) : CacheInv (applyCacheOp c op) := by
  cases op with
  | get key hsh now => exact h.get key hsh now
  | set key v hsh ttl now => exact h.set key v hsh ttl now

theorem CacheInv.runOps [DecidableEq κ] {c : LTRUCache κ α}
    (h : CacheInv c) (ops : List (CacheOp κ α)) : CacheInv (runCacheOps c ops) := by
  induction ops generalizing c with
  | nil => exact h
  | cons op t ih => exact ih (h.applyOp op)

theorem runCacheOps_capacity [DecidableEq κ] (c : LTRUCache κ α)
    (ops : List (CacheOp κ α)) : (runCacheOps c ops).capacity = c.capacity := by
  induction ops generalizing c with
  | nil => rfl
  | cons op t ih =>
    rw [runCacheOps, List.foldl_cons]
    rw [show List.foldl applyCacheOp (applyCacheOp c op) t =
      runCacheOps (applyCacheOp c op) t from rfl, ih]
    exact applyCacheOp_capacity c op

/-- C9: starting from the freshly constructed cache, after any sequence of
`get` and `set` operations the number of stored entries never exceeds the
fixed capacity, the recency list holds no duplicate keys, and the keys of the
recency list are exactly the keys of the entry map. -/
theorem c9_cache_invariants {κ α : Type} [DecidableEq κ] (cap : ℕ) (dttl : ℚ)
    (ops : List (CacheOp κ α)) :
    (runCacheOps (LTRUCache.empty κ α cap dttl) ops).entries.length ≤ cap ∧
    (runCacheOps (LTRUCache.empty κ α cap dttl) ops).order.Nodup ∧
    (∀ k, k ∈ (runCacheOps (LTRUCache.empty κ α cap dttl) ops).order ↔
      k ∈ (runCacheOps (LTRUCache.empty κ α cap dttl) ops).entries.map Prod.fst) := by
  have hinv : CacheInv (runCacheOps (LTRUCache.empty κ α cap dttl) ops) :=
    (CacheInv.empty cap dttl).runOps ops
  have hcap : (runCacheOps (LTRUCache.empty κ α cap dttl) ops).capacity = cap :=
    runCacheOps_capacity _ ops
  obtain ⟨ho, hk, hm, hc⟩ := hinv
  refine ⟨?_, ho, ?_⟩
  · rw [CacheInv.entries_length ⟨ho, hk, hm, hc⟩]
    omega
  · intro k
    rw [hm k, alLookup_isSome_iff_mem]

/-! ## Circuit breaker behaviour -/

theorem getRoute_newState_fail {α : Type} (c : ClientState) (now : ℚ)
    (o : HttpOutcome α) (hf : isFailureOutcome o = true)
    (hst : ¬ c.state = .opened) :
    (getRoute c now o).newState = recordFailure c now := by
  unfold getRoute
  rw [if_neg hst]
  cases o with
  | response status body =>
    have : status ≥ 500 := by simpa [isFailureOutcome] using hf
    simp [performCall, this]
  | netError msg => rfl

theorem performCall_newState_fail {α : Type} (c : ClientState) (now : ℚ)
    (o : HttpOutcome α) (hf : isFailureOutcome o = true) :
    (performCall c now o).newState = recordFailure c now := by
  cases o with
  | response status body =>
    have : status ≥ 500 := by simpa [isFailureOutcome] using hf
    simp [performCall, this]
  | netError msg => rfl

/-- Reachable-state invariant of the breaker: away from `CLOSED` the failure
count has reached the threshold. -/
def ClientInv (c : ClientState) : Prop :=
  ¬ c.state = .closed → c.failureThreshold ≤ c.failures

theorem ClientInv.step {α : Type} {c : ClientState} (h : ClientInv c)
    (now : ℚ) (o : HttpOutcome α) : ClientInv (getRoute c now o).newState := by
  have hcall : ∀ c' : ClientState,
      (c'.failureThreshold = c.failureThreshold) →
      (c'.failures = c.failures) → (¬ c'.state = .closed →
        c'.failureThreshold ≤ c'.failures) →
      ClientInv (performCall c' now o).newState := by
    intro c' hthr hfail hinv'
    cases o with
    | response status body =>
      by_cases hs : status ≥ 500
      · simp only [performCall, hs, if_pos]
        intro hst
        unfold recordFailure at hst ⊢
        simp only [] at hst ⊢
        by_cases hth : c'.failures + 1 ≥ c'.failureThreshold
        · omega
        · simp only [if_neg hth] at hst
          have := hinv' hst
          omega
      · simp only [performCall, if_neg hs]
        intro hst
        simp [resetCircuit] at hst
    | netError msg =>
      simp only [performCall]
      intro hst
      unfold recordFailure at hst ⊢
      simp only [] at hst ⊢
      by_cases hth : c'.failures + 1 ≥ c'.failureThreshold
      · omega
      · simp only [if_neg hth] at hst
        have := hinv' hst
        omega
  unfold getRoute
  by_cases hop : c.state = .opened
  · rw [if_pos hop]
    by_cases hcd : now - c.lastFailureTime > c.cooldown
    · rw [if_pos hcd]
      refine hcall { c with state := .halfOpen } rfl rfl ?_
      intro _
      exact h (by rw [hop]; intro e; cases e)
    · rw [if_neg hcd]
      exact h
  · rw [if_neg hop]
    exact hcall c rfl rfl h

theorem ClientInv.runFrom {α : Type} {c : ClientState} (h : ClientInv c)
    (steps : List (ℚ × HttpOutcome α)) : ClientInv (clientRun c steps) := by
  induction steps generalizing c with
  | nil => exact h
  | cons st t ih =>
    rw [clientRun, List.foldl_cons]
    exact ih (h.step st.1 st.2)

theorem ClientInv.run {α : Type} (steps : List (ℚ × HttpOutcome α)) :
    ClientInv (clientRun initClient steps) :=
  ClientInv.runFrom (fun h => absurd rfl h) steps

/-- C3: the upstream client is a circuit-breaker state machine. (1) From the
initial CLOSED state, three consecutive failures leave the breaker OPEN with
`lastFailureTime` the time of the third failure. (2) While OPEN and within the
cooldown of the last failure, a call raises the circuit-open error without any
network call and leaves the state untouched. (3) While OPEN and past the
cooldown, the call is attempted (the network is hit) as the trial of a
HALF_OPEN breaker. (4) A successful trial resets the breaker to CLOSED with
zero failures and returns the body. (5) From any state reachable from the
initial client, a failed trial after the cooldown returns the breaker to OPEN
with `lastFailureTime` reset to the failure time. -/
theorem c3_circuit_breaker {α : Type} :
    (∀ (t1 t2 t3 : ℚ) (o1 o2 o3 : HttpOutcome α),
      isFailureOutcome o1 = true → isFailureOutcome o2 = true →
      isFailureOutcome o3 = true →
      (clientRun initClient [(t1, o1), (t2, o2), (t3, o3)]).state = .opened ∧
      (clientRun initClient [(t1, o1), (t2, o2), (t3, o3)]).lastFailureTime = t3 ∧
      (clientRun initClient [(t1, o1), (t2, o2), (t3, o3)]).failures = 3) ∧
    (∀ (c : ClientState) (now : ℚ) (o : HttpOutcome α),
      c.state = .opened → now - c.lastFailureTime ≤ c.cooldown →
      getRoute c now o = ⟨c, .error .circuitOpen, false⟩) ∧
    (∀ (c : ClientState) (now : ℚ) (o : HttpOutcome α),
      c.state = .opened → now - c.lastFailureTime > c.cooldown →
      (getRoute c now o).networkCalled = true ∧
      getRoute c now o = performCall { c with state := .halfOpen } now o) ∧
    (∀ (c : ClientState) (now : ℚ) (status : ℕ) (body : α),
      c.state = .opened → now - c.lastFailureTime > c.cooldown → status < 500 →
      (getRoute c now (.response status body)).newState.state = .closed ∧
      (getRoute c now (.response status body)).newState.failures = 0 ∧
      (getRoute c now (.response status body)).result = .ok body) ∧
    (∀ (steps : List (ℚ × HttpOutcome α)) (now : ℚ) (o : HttpOutcome α),
      (clientRun initClient steps).state = .opened →
      now - (clientRun initClient steps).lastFailureTime >
        (clientRun initClient steps).cooldown →
      isFailureOutcome o = true →
      (getRoute (clientRun initClient steps) now o).newState.state = .opened ∧
      (getRoute (clientRun initClient steps) now o).newState.lastFailureTime
        = now) := by
  refine ⟨?_, ?_, ?_, ?_, ?_⟩
  · intro t1 t2 t3 o1 o2 o3 h1 h2 h3
    have e1 : (getRoute initClient t1 o1).newState =
        (⟨.closed, 1, t1, 3, 30⟩ : ClientState) := by
      rw [getRoute_newState_fail initClient t1 o1 h1 (by intro e; cases e)]
      rfl
    have e2 : (getRoute (⟨.closed, 1, t1, 3, 30⟩ : ClientState) t2 o2).newState =
        (⟨.closed, 2, t2, 3, 30⟩ : ClientState) := by
      rw [getRoute_newState_fail _ t2 o2 h2 (by intro e; cases e)]
      rfl
    have e3 : (getRoute (⟨.closed, 2, t2, 3, 30⟩ : ClientState) t3 o3).newState =
        (⟨.opened, 3, t3, 3, 30⟩ : ClientState) := by
      rw [getRoute_newState_fail _ t3 o3 h3 (by intro e; cases e)]
      rfl
    rw [clientRun]
    simp only [List.foldl_cons, List.foldl_nil]
    rw [e1, e2, e3]
    exact ⟨rfl, rfl, rfl⟩
  · intro c now o hop hcd
    unfold getRoute
    rw [if_pos hop, if_neg (not_lt.mpr hcd)]
  · intro c now o hop hcd
    unfold getRoute
    rw [if_pos hop, if_pos hcd]
    refine ⟨?_, rfl⟩
    cases o with
    | response status body =>
      by_cases hs : status ≥ 500
      · simp [performCall, hs]
      · simp [performCall, hs]
    | netError msg => rfl
  · intro c now status body hop hcd hs
    unfold getRoute
    rw [if_pos hop, if_pos hcd]
    simp [performCall, Nat.not_le.mpr hs, resetCircuit]
  · intro steps now o hop hcd hf
    have hinv : ClientInv (clientRun initClient steps) := ClientInv.run steps
    have hthr : (clientRun initClient steps).failureThreshold ≤
        (clientRun initClient steps).failures :=
      hinv (by rw [hop]; intro e; cases e)
    unfold getRoute
    rw [if_pos hop, if_pos hcd]
    rw [performCall_newState_fail _ now o hf]
    unfold recordFailure
    simp only []
    constructor
    · rw [if_pos (by omega)]
    · trivial

/-- The three-failure trace used by the circuit-breaker witness. -/
def c3steps : List (ℚ × HttpOutcome String) :=
  [(1, .netError "down"), (2, .netError "down"), (3, .netError "down")]

/-- Witness for `c3_circuit_breaker`: a concrete three-failure run at times
1, 2, 3, a blocked call at time 10, a half-open success at time 40, and a
half-open failure at time 40. -/
theorem c3_circuit_breaker_witness :
    ((clientRun initClient c3steps).state = .opened ∧
      (clientRun initClient c3steps).lastFailureTime = 3 ∧
      (clientRun initClient c3steps).failures = 3) ∧
    (getRoute (clientRun initClient c3steps) 10
        (HttpOutcome.response 200 "okBody") =
      ⟨clientRun initClient c3steps, .error .circuitOpen, false⟩) ∧
    ((getRoute (clientRun initClient c3steps) 40
        (HttpOutcome.response 200 "okBody")).newState.state = .closed ∧
      (getRoute (clientRun initClient c3steps) 40
        (HttpOutcome.response 200 "okBody")).newState.failures = 0 ∧
      (getRoute (clientRun initClient c3steps) 40
        (HttpOutcome.response 200 "okBody")).result = .ok "okBody") ∧
    ((getRoute (clientRun initClient c3steps) 40
        (HttpOutcome.netError "still down" : HttpOutcome String)).newState.state = .opened ∧
      (getRoute (clientRun initClient c3steps) 40
        (HttpOutcome.netError "still down" : HttpOutcome String)).newState.lastFailureTime = 40) := by
  refine ⟨?_, ?_, ?_, ?_⟩
  · exact c3_circuit_breaker.1 1 2 3 _ _ _ (by decide) (by decide) (by decide)
  · exact c3_circuit_breaker.2.1 _ 10 _ (by decide) (by decide)
  · exact c3_circuit_breaker.2.2.2.1 _ 40 200 "okBody" (by decide) (by decide)
      (by decide)
  · exact c3_circuit_breaker.2.2.2.2 c3steps 40 _ (by decide) (by decide)
      (by decide)

/-! ## Failure classification (claim C4) -/

/-- C4 counterexample: an HTTP 400 response does not propagate as an error —
`get_route` resets the circuit and returns the parsed body as its result
(`resp.json()` is returned for every status below 500). -/
theorem c4_counterexample :
    (getRoute initClient 0 (HttpOutcome.response 400 "errorJsonBody")).result
      = .ok "errorJsonBody" ∧
    (getRoute initClient 0
      (HttpOutcome.response 400 "errorJsonBody")).newState.failures = 0 ∧
    (getRoute initClient 0
      (HttpOutcome.response 400 "errorJsonBody")).newState.state = .closed := by
  exact ⟨rfl, rfl, rfl⟩

/-- C4 (amended): for every call that reaches the network, an HTTP 5xx
response or a network-level error increments the circuit failure count and
raises an error; any response with status below 500 (including 4xx client
errors) does not trip the breaker — but instead of propagating as an error it
resets the circuit and is returned as the call's result (the parsed response
body), leaving classification to the downstream validator. -/
theorem c4_failure_classification {α : Type} (c : ClientState) (now : ℚ)
    (hre : ¬ c.state = .opened) :
    (∀ (status : ℕ) (body : α), 500 ≤ status →
      (getRoute c now (.response status body)).newState = recordFailure c now ∧
      (getRoute c now (.response status body)).newState.failures
        = c.failures + 1 ∧
      (getRoute c now (.response status body)).result
        = .error (.serverError status)) ∧
    (∀ msg : String,
      (getRoute c now (.netError msg : HttpOutcome α)).newState
        = recordFailure c now ∧
      (getRoute c now (.netError msg : HttpOutcome α)).newState.failures
        = c.failures + 1 ∧
      (getRoute c now (.netError msg : HttpOutcome α)).result
        = .error (.connectionError msg)) ∧
    (∀ (status : ℕ) (body : α), status < 500 →
      (getRoute c now (.response status body)).result = .ok body ∧
      (getRoute c now (.response status body)).newState = resetCircuit c ∧
      (getRoute c now (.response status body)).newState.failures = 0 ∧
      (getRoute c now (.response status body)).newState.state = .closed) := by
  refine ⟨?_, ?_, ?_⟩
  · intro status body hs
    unfold getRoute
    rw [if_neg hre]
    simp [performCall, hs, recordFailure]
  · intro msg
    unfold getRoute
    rw [if_neg hre]
    simp [performCall, recordFailure]
  · intro status body hs
    unfold getRoute
    rw [if_neg hre]
    simp [performCall, Nat.not_le.mpr hs, resetCircuit]

/-- Witness for `c4_failure_classification` at the fresh client. -/
theorem c4_failure_classification_witness :
    ((getRoute initClient 7 (HttpOutcome.response 503 "oops")).newState
        = recordFailure initClient 7 ∧
      (getRoute initClient 7
        (HttpOutcome.response 503 "oops")).newState.failures = 1 ∧
      (getRoute initClient 7 (HttpOutcome.response 503 "oops")).result
        = .error (.serverError 503)) ∧
    ((getRoute initClient 7
        (HttpOutcome.netError "refused" : HttpOutcome String)).newState
        = recordFailure initClient 7 ∧
      (getRoute initClient 7
        (HttpOutcome.netError "refused" : HttpOutcome String)).newState.failures
        = 1 ∧
      (getRoute initClient 7
        (HttpOutcome.netError "refused" : HttpOutcome String)).result
        = .error (.connectionError "refused")) ∧
    ((getRoute initClient 7 (HttpOutcome.response 404 "notFound")).result
        = .ok "notFound" ∧
      (getRoute initClient 7
        (HttpOutcome.response 404 "notFound")).newState.state = .closed) := by
  have h5 := (@c4_failure_classification String initClient 7
    (by decide)).1 503 "oops" (by decide)
  have hn := (@c4_failure_classification String initClient 7
    (by decide)).2.1 "refused"
  have h4 := (@c4_failure_classification String initClient 7
    (by decide)).2.2 404 "notFound" (by decide)
  exact ⟨⟨h5.1, h5.2.1, h5.2.2⟩, ⟨hn.1, hn.2.1, hn.2.2⟩, ⟨h4.1, h4.2.2.2⟩⟩

/-! ## CoordinateTransformer behaviour (claims C2, C6) -/

theorem transformedCoords_decomp (portals : Portals) (pre : List Stop)
    (s : Stop) (post : List Stop) :
    transformedCoords portals (pre ++ s :: post) =
      (pre.enum.flatMap fun p =>
        stopContribution portals (pre ++ s :: post).length p.1 p.2) ++
      stopContribution portals (pre ++ s :: post).length pre.length s ++
      ((List.enumFrom (pre.length + 1) post).flatMap fun p =>
        stopContribution portals (pre ++ s :: post).length p.1 p.2) := by
  unfold transformedCoords
  rw [List.enum_append, List.flatMap_append, List.enumFrom_cons,
    List.flatMap_cons, List.append_assoc]

/-- C2 (amended): at the ends of the sequence the gate substitution happens
only for `ACCESS_CONTROLLED_STOP` portals — the origin gets the portal's exit
gate and the destination the portal's entry gate; a stop matched to a
`STANDARD` portal at the origin or destination keeps its physical coordinate
(rounded to 5 decimals), not a gate. -/
theorem c2_origin_dest_gates (portals : Portals) (n i : ℕ) (s : Stop)
    (p : Portal) (hmatch : findPortal portals s.name = some p) :
    (p.ptype = "ACCESS_CONTROLLED_STOP" →
      (i = 0 → stopContribution portals n i s =
        [roundPair (p.exit_gate.lon, p.exit_gate.lat)]) ∧
      (i ≠ 0 → i = n - 1 → stopContribution portals n i s =
        [roundPair (p.entry_gate.lon, p.entry_gate.lat)])) ∧
    (p.ptype ≠ "ACCESS_CONTROLLED_STOP" →
      (i = 0 ∨ i = n - 1) → stopContribution portals n i s =
        [roundPair (s.lon, s.lat)]) := by
  constructor
  · intro hac
    constructor
    · intro h0
      simp [stopContribution, hmatch, h0, hac]
    · intro h0 hd
      subst hd
      simp [stopContribution, hmatch, h0, hac]
  · intro hac hpos
    rcases hpos with h0 | hd
    · simp [stopContribution, hmatch, h0, hac]
    · by_cases h0 : i = 0
      · simp [stopContribution, hmatch, h0, hac]
      · subst hd
        simp [stopContribution, hmatch, h0, hac]

/-- The STANDARD portal of the C2 counterexample. -/
def c2portal : Portal := ⟨"STANDARD", ⟨11.3, 75.9⟩, ⟨11.4, 75.95⟩⟩

/-- Portal configuration of the C2 counterexample. -/
def c2portals : Portals := [("alpha", c2portal)]

/-- Stops of the C2 counterexample: the origin matches the STANDARD portal. -/
def c2stops : List Stop := [⟨"Alpha Depot", 11.5, 75.5⟩, ⟨"Beta", 11.0, 75.6⟩]

/-- C2 counterexample: a stop matched to a STANDARD portal placed at the
origin is sent upstream with its own physical coordinate, not the portal's
exit gate, refuting the claim for STANDARD portals. -/
theorem c2_counterexample :
    findPortal c2portals "Alpha Depot" = some c2portal ∧
    c2portal.ptype = "STANDARD" ∧
    injectPortals c2portals c2stops STRATEGY_PORTALS_ONLY =
      [(75.5, 11.5), (75.6, 11.0)] ∧
    ((75.5 : ℚ), (11.5 : ℚ)) ≠
      roundPair (c2portal.exit_gate.lon, c2portal.exit_gate.lat) := by
  refine ⟨by decide, rfl, by decide, by decide⟩

/-- The ACCESS_CONTROLLED portal used by the transformer witnesses. -/
def acPortal : Portal := ⟨"ACCESS_CONTROLLED_STOP", ⟨11.1, 75.1⟩, ⟨11.2, 75.2⟩⟩

/-- Portal configuration with only the access-controlled portal. -/
def acPortals : Portals := [("airport", acPortal)]

/-- A stop matching the access-controlled portal. -/
def acStop : Stop := ⟨"Calicut Airport", 11.15, 75.15⟩

/-- Witness for `c2_origin_dest_gates`: exit gate at the origin, entry gate at
the destination for the access-controlled portal; physical coordinate for the
STANDARD portal at the origin. -/
theorem c2_origin_dest_gates_witness :
    stopContribution acPortals 2 0 acStop = [roundPair (75.2, 11.2)] ∧
    stopContribution acPortals 2 1 acStop = [roundPair (75.1, 11.1)] ∧
    stopContribution c2portals 2 0 ⟨"Alpha Depot", 11.5, 75.5⟩ =
      [roundPair (75.5, 11.5)] := by
  refine ⟨((c2_origin_dest_gates acPortals 2 0 acStop acPortal
      (by decide)).1 (by decide)).1 rfl,
    ((c2_origin_dest_gates acPortals 2 1 acStop acPortal
      (by decide)).1 (by decide)).2 (by decide) (by decide),
    (c2_origin_dest_gates c2portals 2 0 _ c2portal
      (by decide)).2 (by decide) (Or.inl rfl)⟩

/-- Named stops used by the transformer witnesses. -/
def northStop : Stop := ⟨"North Stop", 11.5, 75.5⟩

/-- Southern neighbour stop of the transformer witnesses. -/
def southStop : Stop := ⟨"South Stop", 11.0, 75.6⟩

/-- The STANDARD-portal stop of the transformer witnesses. -/
def alphaStop : Stop := ⟨"Alpha Depot", 11.5, 75.5⟩

/-- C6: an intermediate stop (neither first nor last) matched to an
ACCESS_CONTROLLED portal contributes exactly one coordinate — the portal's
entry gate — and (whenever the rounded physical coordinate differs from the
rounded entry gate) never the stop's physical coordinate; an intermediate stop
matched to a STANDARD portal contributes exactly three coordinates in order:
entry gate, physical stop coordinate, exit gate. The transformer output for
the whole stop list is the concatenation of the per-stop contributions, so the
output contains exactly this block for the stop. -/
theorem c6_intermediate_portal (portals : Portals) (pre post : List Stop)
    (s : Stop) (p : Portal) (hmatch : findPortal portals s.name = some p)
    (hpre : pre ≠ []) (hpost : post ≠ []) :
    (p.ptype = "ACCESS_CONTROLLED_STOP" →
      stopContribution portals (pre ++ s :: post).length pre.length s =
        [roundPair (p.entry_gate.lon, p.entry_gate.lat)] ∧
      (roundPair (s.lon, s.lat) ≠ roundPair (p.entry_gate.lon, p.entry_gate.lat) →
        roundPair (s.lon, s.lat) ∉
          stopContribution portals (pre ++ s :: post).length pre.length s)) ∧
    (p.ptype ≠ "ACCESS_CONTROLLED_STOP" →
      stopContribution portals (pre ++ s :: post).length pre.length s =
        [roundPair (p.entry_gate.lon, p.entry_gate.lat),
         roundPair (s.lon, s.lat),
         roundPair (p.exit_gate.lon, p.exit_gate.lat)]) ∧
    (∃ A B, transformedCoords portals (pre ++ s :: post) =
      A ++ stopContribution portals (pre ++ s :: post).length pre.length s
        ++ B) := by
  have hlen : (pre ++ s :: post).length = pre.length + post.length + 1 := by
    simp [List.length_append]
    omega
  have h0 : ¬ pre.length = 0 := by
    intro e
    exact hpre (List.length_eq_zero.mp e)
  have hd : ¬ pre.length = (pre ++ s :: post).length - 1 := by
    rw [hlen]
    have : 0 < post.length := List.length_pos.mpr hpost
    omega
  refine ⟨?_, ?_, ?_⟩
  · intro hac
    constructor
    · simp [stopContribution, hmatch, h0, hd, hac, hpost]
    · intro hne
      simp only [stopContribution, hmatch, h0, hd, hac]
      simp [hne, h0, hd, hpost]
  · intro hac
    simp [stopContribution, hmatch, h0, hd, hac, hpost]
  · exact ⟨_, _, transformedCoords_decomp portals pre s post⟩

/-- Witness for `c6_intermediate_portal`: a concrete three-stop request where
the middle stop matches the access-controlled portal (single entry-gate
substitute), and a concrete three-stop request where the middle stop matches a
STANDARD portal (entry/physical/exit sandwich). -/
theorem c6_intermediate_portal_witness :
    (stopContribution acPortals 3 1 acStop = [roundPair (75.1, 11.1)] ∧
      roundPair (acStop.lon, acStop.lat) ∉
        stopContribution acPortals 3 1 acStop) ∧
    stopContribution c2portals 3 1 alphaStop =
      [roundPair (c2portal.entry_gate.lon, c2portal.entry_gate.lat),
       roundPair (75.5, 11.5),
       roundPair (c2portal.exit_gate.lon, c2portal.exit_gate.lat)] ∧
    (∃ A B, transformedCoords acPortals ([northStop] ++ acStop :: [southStop]) =
      A ++ stopContribution acPortals
        ([northStop] ++ acStop :: [southStop]).length 1 acStop ++ B) := by
  have hac := c6_intermediate_portal acPortals [northStop] [southStop] acStop
    acPortal (by decide) (by decide) (by decide)
  have hstd := c6_intermediate_portal c2portals [northStop] [southStop]
    alphaStop c2portal (by decide) (by decide) (by decide)
  refine ⟨⟨(hac.1 rfl).1, (hac.1 rfl).2 (by decide)⟩,
    hstd.2.1 (by decide), hac.2.2⟩

/-! ## Rounding bounds and coordinate provenance (claim C10) -/

theorem ratFloor_eq_floor (q : ℚ) : ratFloor q = ⌊q⌋ := by
  rw [Rat.floor_def]
  rfl

theorem roundHalfEven_bound (q : ℚ) :
    |(roundHalfEven q : ℚ) - q| ≤ 1 / 2 := by
  unfold roundHalfEven
  rw [ratFloor_eq_floor]
  have hle : (⌊q⌋ : ℚ) ≤ q := Int.floor_le q
  have hlt : q < ⌊q⌋ + 1 := Int.lt_floor_add_one q
  by_cases h1 : q - ⌊q⌋ < 1 / 2
  · rw [if_pos h1, abs_le]
    constructor <;> linarith
  · rw [if_neg h1]
    by_cases h2 : 1 / 2 < q - ⌊q⌋
    · rw [if_pos h2, abs_le]
      push_cast
      constructor <;> linarith
    · rw [if_neg h2]
      have heq : q - ⌊q⌋ = 1 / 2 := le_antisymm (not_lt.mp h2) (not_lt.mp h1)
      by_cases h3 : ⌊q⌋ % 2 = 0
      · rw [if_pos h3, abs_le]
        constructor <;> linarith
      · rw [if_neg h3, abs_le]
        push_cast
        constructor <;> linarith

theorem round5_bound (q : ℚ) : |round5 q - q| ≤ 1 / 200000 := by
  unfold round5
  have h := roundHalfEven_bound (q * 100000)
  have heq : (roundHalfEven (q * 100000) : ℚ) / 100000 - q =
      ((roundHalfEven (q * 100000) : ℚ) - q * 100000) / 100000 := by
    ring
  rw [heq, abs_div]
  rw [show |(100000 : ℚ)| = 100000 from abs_of_pos (by norm_num)]
  rw [div_le_div_iff₀ (by norm_num) (by norm_num)]
  linarith

/-- Every source coordinate `_inject_portals` can draw from: the stops'
physical `(lon, lat)` values, every configured portal gate, and the two fixed
strategy via points. -/
def sourcePool (portals : Portals) (stops : List Stop) : List (ℚ × ℚ) :=
  stops.map (fun s => (s.lon, s.lat)) ++
  portals.flatMap (fun pr =>
    [(pr.2.entry_gate.lon, pr.2.entry_gate.lat),
     (pr.2.exit_gate.lon, pr.2.exit_gate.lat)]) ++
  [viaPalayam, viaBypass]

theorem mem_enumFrom_snd {α : Type} :
    ∀ (l : List α) (n : ℕ) (p : ℕ × α), p ∈ List.enumFrom n l → p.2 ∈ l := by
  intro l
  induction l with
  | nil => intro n p h; cases h
  | cons a t ih =>
    intro n p h
    rw [List.enumFrom_cons] at h
    rcases List.mem_cons.mp h with h | h
    · subst h; exact List.mem_cons_self _ _
    · exact List.mem_cons_of_mem _ (ih (n + 1) p h)

theorem mem_insertClamped {α : Type} (i : ℕ) (x : α) (l : List α) (c : α)
    (h : c ∈ insertClamped i x l) : c = x ∨ c ∈ l := by
  unfold insertClamped at h
  rcases List.mem_append.mp h with h | h
  · exact Or.inr (List.mem_of_mem_take h)
  · rcases List.mem_cons.mp h with h | h
    · exact Or.inl h
    · exact Or.inr (List.mem_of_mem_drop h)

theorem stopContribution_none (portals : Portals) (n i : ℕ) (s : Stop)
    (hf : findPortal portals s.name = none) :
    stopContribution portals n i s = [roundPair (s.lon, s.lat)] := by
  unfold stopContribution
  rw [hf]

theorem stopContribution_some (portals : Portals) (n i : ℕ) (s : Stop)
    (p : Portal) (hf : findPortal portals s.name = some p) :
    stopContribution portals n i s =
      (if i = 0 then
        if p.ptype = "ACCESS_CONTROLLED_STOP" then
          [roundPair (p.exit_gate.lon, p.exit_gate.lat)]
        else [roundPair (s.lon, s.lat)]
      else if i = n - 1 then
        if p.ptype = "ACCESS_CONTROLLED_STOP" then
          [roundPair (p.entry_gate.lon, p.entry_gate.lat)]
        else [roundPair (s.lon, s.lat)]
      else
        if p.ptype = "ACCESS_CONTROLLED_STOP" then
          [roundPair (p.entry_gate.lon, p.entry_gate.lat)]
        else [roundPair (p.entry_gate.lon, p.entry_gate.lat),
              roundPair (s.lon, s.lat),
              roundPair (p.exit_gate.lon, p.exit_gate.lat)]) := by
  unfold stopContribution
  rw [hf]

theorem stopContribution_src (portals : Portals) (n i : ℕ) (s : Stop)
    (c : ℚ × ℚ) (h : c ∈ stopContribution portals n i s) :
    c = roundPair (s.lon, s.lat) ∨
    ∃ pr : String × Portal, pr ∈ portals ∧
      (c = roundPair (pr.2.entry_gate.lon, pr.2.entry_gate.lat) ∨
       c = roundPair (pr.2.exit_gate.lon, pr.2.exit_gate.lat)) := by
  cases hf : findPortal portals s.name with
  | none =>
    rw [stopContribution_none portals n i s hf, List.mem_singleton] at h
    exact Or.inl h
  | some p =>
    rw [stopContribution_some portals n i s p hf] at h
    obtain ⟨pr, hpm, hsnd⟩ : ∃ pr : String × Portal,
        pr ∈ portals ∧ pr.2 = p := by
      unfold findPortal at hf
      cases hfind : List.find? (fun pr => nameMatches pr.1 s.name) portals with
      | none => rw [hfind] at hf; cases hf
      | some pr =>
        rw [hfind] at hf
        simp at hf
        exact ⟨pr, List.mem_of_find?_eq_some hfind, hf⟩
    subst hsnd
    by_cases hO : i = 0
    · rw [if_pos hO] at h
      by_cases hAC : pr.2.ptype = "ACCESS_CONTROLLED_STOP"
      · rw [if_pos hAC, List.mem_singleton] at h
        exact Or.inr ⟨pr, hpm, Or.inr h⟩
      · rw [if_neg hAC, List.mem_singleton] at h
        exact Or.inl h
    · rw [if_neg hO] at h
      by_cases hD : i = n - 1
      · rw [if_pos hD] at h
        by_cases hAC : pr.2.ptype = "ACCESS_CONTROLLED_STOP"
        · rw [if_pos hAC, List.mem_singleton] at h
          exact Or.inr ⟨pr, hpm, Or.inl h⟩
        · rw [if_neg hAC, List.mem_singleton] at h
          exact Or.inl h
      · rw [if_neg hD] at h
        by_cases hAC : pr.2.ptype = "ACCESS_CONTROLLED_STOP"
        · rw [if_pos hAC, List.mem_singleton] at h
          exact Or.inr ⟨pr, hpm, Or.inl h⟩
        · rw [if_neg hAC] at h
          rcases List.mem_cons.mp h with h | h
          · exact Or.inr ⟨pr, hpm, Or.inl h⟩
          · rcases List.mem_cons.mp h with h | h
            · exact Or.inl h
            · rw [List.mem_singleton] at h
              exact Or.inr ⟨pr, hpm, Or.inr h⟩

theorem transformedCoords_src (portals : Portals) (stops : List Stop)
    (c : ℚ × ℚ) (h : c ∈ transformedCoords portals stops) :
    (∃ s ∈ stops, c = roundPair (s.lon, s.lat)) ∨
    ∃ pr : String × Portal, pr ∈ portals ∧
      (c = roundPair (pr.2.entry_gate.lon, pr.2.entry_gate.lat) ∨
       c = roundPair (pr.2.exit_gate.lon, pr.2.exit_gate.lat)) := by
  unfold transformedCoords at h
  rw [List.mem_flatMap] at h
  obtain ⟨p, hp, hc⟩ := h
  have hs : p.2 ∈ stops := by
    rw [List.enum_eq_enumFrom] at hp
    exact mem_enumFrom_snd stops 0 p hp
  rcases stopContribution_src portals stops.length p.1 p.2 c hc with h | ⟨pr, hpm, hg⟩
  · exact Or.inl ⟨p.2, hs, h⟩
  · exact Or.inr ⟨pr, hpm, hg⟩

/-- C10: every coordinate the transformer sends upstream — stop coordinate,
portal gate, or strategy via point — is a source value rounded to 5 decimal
places (the `f"{x:.5f}"` format / parse round-trip), and therefore differs
from its source by at most 5·10⁻⁶ degrees per component. -/
theorem c10_round5 (portals : Portals) (stops : List Stop) (strategy : String)
    (c : ℚ × ℚ) (h : c ∈ injectPortals portals stops strategy) :
    ∃ src ∈ sourcePool portals stops, c = roundPair src ∧
      |c.1 - src.1| ≤ 1 / 200000 ∧ |c.2 - src.2| ≤ 1 / 200000 := by
  have hvia1 : roundPair viaPalayam = viaPalayam := by decide
  have hvia2 : roundPair viaBypass = viaBypass := by decide
  have finish : ∀ src ∈ sourcePool portals stops, c = roundPair src →
      ∃ src ∈ sourcePool portals stops, c = roundPair src ∧
        |c.1 - src.1| ≤ 1 / 200000 ∧ |c.2 - src.2| ≤ 1 / 200000 := by
    intro src hmem hc
    refine ⟨src, hmem, hc, ?_, ?_⟩
    · rw [hc]
      exact round5_bound src.1
    · rw [hc]
      exact round5_bound src.2
  have fromTransformed : c ∈ transformedCoords portals stops →
      ∃ src ∈ sourcePool portals stops, c = roundPair src ∧
        |c.1 - src.1| ≤ 1 / 200000 ∧ |c.2 - src.2| ≤ 1 / 200000 := by
    intro hc
    rcases transformedCoords_src portals stops c hc with ⟨s, hs, he⟩ | ⟨pr, hpm, hg⟩
    · refine finish (s.lon, s.lat) ?_ he
      unfold sourcePool
      refine List.mem_append.mpr (Or.inl (List.mem_append.mpr (Or.inl ?_)))
      exact List.mem_map.mpr ⟨s, hs, rfl⟩
    · rcases hg with he | he
      · refine finish (pr.2.entry_gate.lon, pr.2.entry_gate.lat) ?_ he
        unfold sourcePool
        refine List.mem_append.mpr (Or.inl (List.mem_append.mpr (Or.inr ?_)))
        rw [List.mem_flatMap]
        exact ⟨pr, hpm, by simp⟩
      · refine finish (pr.2.exit_gate.lon, pr.2.exit_gate.lat) ?_ he
        unfold sourcePool
        refine List.mem_append.mpr (Or.inl (List.mem_append.mpr (Or.inr ?_)))
        rw [List.mem_flatMap]
        exact ⟨pr, hpm, by simp⟩
  unfold injectPortals at h
  by_cases h1 : strategy = STRATEGY_PLUS_CITY
  · rw [if_pos h1] at h
    rcases mem_insertClamped _ _ _ _ h with he | hc
    · refine finish viaPalayam ?_ (by rw [he, hvia1])
      unfold sourcePool
      exact List.mem_append.mpr (Or.inr (by simp))
    · exact fromTransformed hc
  · rw [if_neg h1] at h
    by_cases h2 : strategy = STRATEGY_PLUS_HIGHWAY
    · rw [if_pos h2] at h
      rcases mem_insertClamped _ _ _ _ h with he | hc
      · refine finish viaBypass ?_ (by rw [he, hvia2])
        unfold sourcePool
        exact List.mem_append.mpr (Or.inr (by simp))
      · exact fromTransformed hc
    · rw [if_neg h2] at h
      exact fromTransformed h

/-- Witness for `c10_round5`: the first output coordinate of a concrete
request whose stop coordinate needs actual rounding. -/
theorem c10_round5_witness :
    ∃ src ∈ sourcePool [] [⟨"Plain", 11.123456, 75.987654⟩],
      ((75.98765 : ℚ), (11.12346 : ℚ)) = roundPair src ∧
      |(75.98765 : ℚ) - src.1| ≤ 1 / 200000 ∧
      |(11.12346 : ℚ) - src.2| ≤ 1 / 200000 := by
  exact c10_round5 [] [⟨"Plain", 11.123456, 75.987654⟩] STRATEGY_PORTALS_ONLY
    (75.98765, 11.12346) (by decide)

/-! ## Strategy-loop error handling (claim C7) -/

theorem strategyLoop_nil {α : Type} (portals : Portals) (cfgHash : String)
    (stops : List Stop) (client : ℕ → List (ℚ × ℚ) → Except String α)
    (validate : α → Bool × String) (times : ℕ → ℚ) (t0 : ℚ)
    (cache : BrokerCache α) (lastErr : String) (calls iter : ℕ) :
    strategyLoop portals cfgHash stops client validate times t0
      [] cache lastErr calls iter = (.error (.exhausted lastErr), cache, calls) := by
  rfl

theorem strategyLoop_clientError {α : Type} (portals : Portals)
    (cfgHash : String) (stops : List Stop)
    (client : ℕ → List (ℚ × ℚ) → Except String α) (validate : α → Bool × String)
    (times : ℕ → ℚ) (t0 : ℚ) (strat : String) (rest : List String)
    (cache cache' : BrokerCache α) (lastErr msg : String) (calls iter : ℕ)
    (hbud : ¬ times iter - t0 > timeBudget)
    (hmiss : LTRUCache.get cache (stops, strat, cfgHash) cfgHash (times iter)
      = (none, cache'))
    (hclient : client calls (injectPortals portals stops strat) = .error msg) :
    strategyLoop portals cfgHash stops client validate times t0
      (strat :: rest) cache lastErr calls iter =
    strategyLoop portals cfgHash stops client validate times t0
      rest cache' msg (calls + 1) (iter + 1) := by
  conv_lhs => unfold strategyLoop
  rw [if_neg hbud, hmiss, hclient]

theorem strategyLoop_invalidRoute {α : Type} (portals : Portals)
    (cfgHash : String) (stops : List Stop)
    (client : ℕ → List (ℚ × ℚ) → Except String α) (validate : α → Bool × String)
    (times : ℕ → ℚ) (t0 : ℚ) (strat : String) (rest : List String)
    (cache cache' : BrokerCache α) (lastErr reason : String) (calls iter : ℕ)
    (route : α) (hbud : ¬ times iter - t0 > timeBudget)
    (hmiss : LTRUCache.get cache (stops, strat, cfgHash) cfgHash (times iter)
      = (none, cache'))
    (hclient : client calls (injectPortals portals stops strat) = .ok route)
    (hval : validate route = (false, reason)) :
    strategyLoop portals cfgHash stops client validate times t0
      (strat :: rest) cache lastErr calls iter =
    strategyLoop portals cfgHash stops client validate times t0
      rest
      (cache'.set (stops, strat, cfgHash) (.errE reason) cfgHash
        (some negativeCacheTtl) (times iter))
      reason (calls + 1) (iter + 1) := by
  conv_lhs => unfold strategyLoop
  rw [if_neg hbud, hmiss, hclient]
  dsimp only []
  rw [hval]

/-- C7: within the broker's strategy loop, (a) an exception from the upstream
client records its message as the last error and advances to the next strategy
passing the cache on unchanged (no entry is written — the only cache state
carried forward is the one produced by the failed lookup itself); (b) an
upstream response that fails validation writes a negative entry under the
strategy's cache key with the 30-second negative TTL before advancing, and
records the reason as the last error; (c) when the strategies are exhausted
the raised error carries the last recorded reason; and (d) the negative TTL of
30 s is strictly shorter than the 300-second default TTL of the engine's
cache. -/
theorem c7_strategy_loop_errors {α : Type} (portals : Portals)
    (cfgHash : String) (stops : List Stop)
    (client : ℕ → List (ℚ × ℚ) → Except String α) (validate : α → Bool × String)
    (times : ℕ → ℚ) (t0 : ℚ) (strat : String) (rest : List String)
    (cache cache' : BrokerCache α) (lastErr : String) (calls iter : ℕ)
    (hbud : ¬ times iter - t0 > timeBudget)
    (hmiss : LTRUCache.get cache (stops, strat, cfgHash) cfgHash (times iter)
      = (none, cache')) :
    (∀ msg, client calls (injectPortals portals stops strat) = .error msg →
      strategyLoop portals cfgHash stops client validate times t0
        (strat :: rest) cache lastErr calls iter =
      strategyLoop portals cfgHash stops client validate times t0
        rest cache' msg (calls + 1) (iter + 1)) ∧
    (∀ route reason,
      client calls (injectPortals portals stops strat) = .ok route →
      validate route = (false, reason) →
      strategyLoop portals cfgHash stops client validate times t0
        (strat :: rest) cache lastErr calls iter =
      strategyLoop portals cfgHash stops client validate times t0
        rest
        (cache'.set (stops, strat, cfgHash) (.errE reason) cfgHash
          (some negativeCacheTtl) (times iter))
        reason (calls + 1) (iter + 1)) ∧
    strategyLoop portals cfgHash stops client validate times t0
      [] cache lastErr calls iter = (.error (.exhausted lastErr), cache, calls) ∧
    negativeCacheTtl < (engineFreshCache α).defaultTtl := by
  refine ⟨?_, ?_, strategyLoop_nil portals cfgHash stops client validate
    times t0 cache lastErr calls iter, by norm_num [negativeCacheTtl,
      engineFreshCache, LTRUCache.empty]⟩
  · intro msg hclient
    exact strategyLoop_clientError portals cfgHash stops client validate
      times t0 strat rest cache cache' lastErr msg calls iter hbud hmiss hclient
  · intro route reason hclient hval
    exact strategyLoop_invalidRoute portals cfgHash stops client validate
      times t0 strat rest cache cache' lastErr reason calls iter route hbud
      hmiss hclient hval

/-- Witness for `c7_strategy_loop_errors` on a concrete one-strategy request:
a client exception advances without writing to the cache, an invalid route
writes the 30-second negative entry, and exhaustion reports the last error. -/
theorem c7_strategy_loop_errors_witness :
    (strategyLoop [] "h" [⟨"A", 1, 2⟩]
        (fun _ _ => (.error "boom" : Except String String))
        (fun _ => (true, "Valid")) (fun _ => 0) 0
        [STRATEGY_PORTALS_ONLY] (engineFreshCache String) "Unknown Error" 0 0 =
      strategyLoop [] "h" [⟨"A", 1, 2⟩]
        (fun _ _ => (.error "boom" : Except String String))
        (fun _ => (true, "Valid")) (fun _ => 0) 0
        [] (engineFreshCache String) "boom" 1 1) ∧
    (strategyLoop [] "h" [⟨"A", 1, 2⟩]
        (fun _ _ => (.ok "route" : Except String String))
        (fun _ => (false, "Spatial Violation")) (fun _ => 0) 0
        [STRATEGY_PORTALS_ONLY] (engineFreshCache String) "Unknown Error" 0 0 =
      strategyLoop [] "h" [⟨"A", 1, 2⟩]
        (fun _ _ => (.ok "route" : Except String String))
        (fun _ => (false, "Spatial Violation")) (fun _ => 0) 0
        [] ((engineFreshCache String).set ([⟨"A", 1, 2⟩],
          STRATEGY_PORTALS_ONLY, "h") (.errE "Spatial Violation") "h"
          (some negativeCacheTtl) 0)
        "Spatial Violation" 1 1) ∧
    (strategyLoop [] "h" [⟨"A", 1, 2⟩]
        (fun _ _ => (.error "boom" : Except String String))
        (fun _ => (true, "Valid")) (fun _ => 0) 0
        [] (engineFreshCache String) "boom" 1 1 =
      (.error (.exhausted "boom"), engineFreshCache String, 1)) ∧
    negativeCacheTtl < (engineFreshCache String).defaultTtl := by
  have h1 := c7_strategy_loop_errors [] "h" [⟨"A", 1, 2⟩]
    (fun _ _ => (.error "boom" : Except String String))
    (fun _ => (true, "Valid")) (fun _ => 0) 0 STRATEGY_PORTALS_ONLY []
    (engineFreshCache String) (engineFreshCache String) "Unknown Error" 0 0
    (by decide) (by rfl)
  have h2 := c7_strategy_loop_errors [] "h" [⟨"A", 1, 2⟩]
    (fun _ _ => (.ok "route" : Except String String))
    (fun _ => (false, "Spatial Violation")) (fun _ => 0) 0
    STRATEGY_PORTALS_ONLY [] (engineFreshCache String) (engineFreshCache String)
    "Unknown Error" 0 0 (by decide) (by rfl)
  have h3 := c7_strategy_loop_errors [] "h" [⟨"A", 1, 2⟩]
    (fun _ _ => (.error "boom" : Except String String))
    (fun _ => (true, "Valid")) (fun _ => 0) 0 STRATEGY_PORTALS_ONLY []
    (engineFreshCache String) (engineFreshCache String) "boom" 1 1
    (by decide) (by rfl)
  exact ⟨h1.1 "boom" rfl, h2.2.1 "route" "Spatial Violation" rfl rfl,
    h3.2.2.1, h1.2.2.2⟩

/-! ## Zone-access precheck (claim C1) -/

theorem checkStopsAccess_error (portals : Portals) (poly : List (ℚ × ℚ)) :
    ∀ (stops : List Stop) (s : Stop), s ∈ stops →
    portalAllowed portals s.name = false →
    point_in_polygon (s.lat, s.lon) poly = true →
    ∃ msg, checkStopsAccess portals poly stops = .error msg := by
  intro stops
  induction stops with
  | nil => intro s hs; cases hs
  | cons a t ih =>
    intro s hs hpa hin
    by_cases ha : portalAllowed portals a.name = true
    · rcases List.mem_cons.mp hs with rfl | hst
      · rw [ha] at hpa
        cases hpa
      · obtain ⟨msg, hm⟩ := ih s hst hpa hin
        refine ⟨msg, ?_⟩
        unfold checkStopsAccess
        rw [if_pos ha]
        exact hm
    · have ha' : ¬ portalAllowed portals a.name = true := ha
      by_cases hpin : point_in_polygon (a.lat, a.lon) poly = true
      · refine ⟨"CRITICAL CONFIG ERROR: Stop " ++ a.name ++
          " is physically inside the Restricted Beach Road Zone but has no Access Rule defined in portals.json.", ?_⟩
        unfold checkStopsAccess
        rw [if_neg ha', if_pos hpin]
      · rcases List.mem_cons.mp hs with rfl | hst
        · exact absurd hin hpin
        · obtain ⟨msg, hm⟩ := ih s hst hpa hin
          refine ⟨msg, ?_⟩
          unfold checkStopsAccess
          rw [if_neg ha', if_neg hpin]
          exact hm

theorem mem_sortStopsByLatPDesc (stops : List Stop) (s : Stop) :
    s ∈ sortStopsByLatPDesc stops ↔ s ∈ stops :=
  List.Perm.mem_iff (List.perm_insertionSort _ stops)

/-- C1 (amended): if the zone list contains a zone with id `ZONE_BEACH_RD`
(the only zone the precheck consults — its `rule` field is not examined), and
some stop of the request matches no portal key while its point lies inside
that zone's polygon, then `get_optimized_route` fails with the configuration
error before any upstream client call is made (the returned upstream-call
count is zero and the cache is untouched). -/
theorem c1_beach_zone_precheck {α : Type} (zones : List Zone)
    (portals : Portals) (cfgHash : String) (stops : List Stop)
    (client : ℕ → List (ℚ × ℚ) → Except String α)
    (validate : α → Bool × String) (times : ℕ → ℚ) (t0 : ℚ)
    (cache0 : BrokerCache α) (bz : Zone) (s : Stop)
    (hbz : zones.find? (fun z => z.id = "ZONE_BEACH_RD") = some bz)
    (hs : s ∈ stops)
    (hnoportal : portalAllowed portals s.name = false)
    (hin : point_in_polygon (s.lat, s.lon) bz.geometry = true) :
    ∃ msg, getOptimizedRoute zones portals cfgHash stops client validate
      times t0 cache0 = (.error (.configError msg), cache0, 0) := by
  have hsorted : s ∈ sortStopsByLatPDesc stops :=
    (mem_sortStopsByLatPDesc stops s).mpr hs
  obtain ⟨msg, hmsg⟩ := checkStopsAccess_error portals bz.geometry
    (sortStopsByLatPDesc stops) s hsorted hnoportal hin
  have hv : validateStopsAccess zones portals (sortStopsByLatPDesc stops)
      = .error msg := by
    unfold validateStopsAccess
    rw [hbz]
    exact hmsg
  refine ⟨msg, ?_⟩
  unfold getOptimizedRoute
  rw [hv]

/-- The non-beach forbidden zone of the C1 counterexample. -/
def c1zone : Zone :=
  ⟨"ZONE_OTHER", "Other Zone", "FORBIDDEN_SEGMENT",
   [(0, 0), (0, 10), (10, 10), (10, 0)]⟩

/-- C1 counterexample: a stop inside a `FORBIDDEN_SEGMENT` zone whose id is
not `ZONE_BEACH_RD`, with no matching portal — the claim's premises hold, yet
the broker does not raise a configuration error: it proceeds to call the
upstream client (one call is made) and fails with the exhaustion error
instead. The precheck only ever consults the zone with id `ZONE_BEACH_RD`. -/
theorem c1_counterexample :
    c1zone.rule = "FORBIDDEN_SEGMENT" ∧
    portalAllowed [] "S1" = false ∧
    point_in_polygon (5, 5) c1zone.geometry = true ∧
    getOptimizedRoute [c1zone] [] "h" [⟨"S1", 5, 5⟩]
      (fun _ _ => (.error "boom" : Except String String))
      (fun _ => (true, "Valid")) (fun _ => 0) 0 (engineFreshCache String)
      = (.error (.exhausted "boom"), engineFreshCache String, 1) := by
  refine ⟨rfl, rfl, by decide, by rfl⟩

/-- The beach-road zone used by the C1 witness. -/
def beachZone : Zone :=
  ⟨"ZONE_BEACH_RD", "Beach Road", "FORBIDDEN_SEGMENT",
   [(0, 0), (0, 10), (10, 10), (10, 0)]⟩

/-- Witness for `c1_beach_zone_precheck` at a concrete configuration. -/
theorem c1_beach_zone_precheck_witness :
    ∃ msg, getOptimizedRoute [beachZone] [] "h" [⟨"S1", 5, 5⟩]
      (fun _ _ => (.error "boom" : Except String String))
      (fun _ => (true, "Valid")) (fun _ => 0) 0 (engineFreshCache String)
      = (.error (.configError msg), engineFreshCache String, 0) := by
  exact c1_beach_zone_precheck [beachZone] [] "h" [⟨"S1", 5, 5⟩]
    (fun _ _ => (.error "boom" : Except String String))
    (fun _ => (true, "Valid")) (fun _ => 0) 0 (engineFreshCache String)
    beachZone ⟨"S1", 5, 5⟩ (by decide) (by decide) (by decide) (by decide)

/-! ## Ray casting outside the bounding box (claim C8) -/

/-- Parity of the crossings counted during the ray-casting loop. -/
def xorFold (c : β → Bool) (l : List β) : Bool :=
  l.foldr (fun pr acc => xor (c pr) acc) false

theorem foldl_toggle_eq (c : β → Bool) :
    ∀ (l : List β) (b : Bool),
    l.foldl (fun ins pr => if c pr then !ins else ins) b = xor b (xorFold c l) := by
  intro l
  induction l with
  | nil => intro b; simp [xorFold]
  | cons a t ih =>
    intro b
    rw [List.foldl_cons, ih]
    unfold xorFold
    rw [List.foldr_cons]
    cases hca : c a <;> cases b <;> simp [hca]

theorem point_in_polygon_eq_xorFold (point : ℚ × ℚ) (polygon : List (ℚ × ℚ)) :
    point_in_polygon point polygon =
      xorFold (rayCrossing point) (cyclicPairs polygon) := by
  unfold point_in_polygon
  rw [foldl_toggle_eq]
  simp

theorem xorFold_false (c : β → Bool) :
    ∀ l : List β, (∀ pr ∈ l, c pr = false) → xorFold c l = false := by
  intro l
  induction l with
  | nil => intro _; rfl
  | cons a t ih =>
    intro h
    unfold xorFold
    rw [List.foldr_cons, h a (List.mem_cons_self a t), Bool.false_xor]
    exact ih fun pr hpr => h pr (List.mem_cons_of_mem a hpr)

theorem xorFold_congr (c₁ c₂ : β → Bool) :
    ∀ l : List β, (∀ pr ∈ l, c₁ pr = c₂ pr) → xorFold c₁ l = xorFold c₂ l := by
  intro l
  induction l with
  | nil => intro _; rfl
  | cons a t ih =>
    intro h
    unfold xorFold
    rw [List.foldr_cons, List.foldr_cons]
    rw [h a (List.mem_cons_self a t)]
    rw [show (t.foldr (fun pr acc => xor (c₁ pr) acc) false) = xorFold c₁ t
      from rfl]
    rw [show (t.foldr (fun pr acc => xor (c₂ pr) acc) false) = xorFold c₂ t
      from rfl]
    rw [ih fun pr hpr => h pr (List.mem_cons_of_mem a hpr)]

theorem xorFold_zip_chain (f : β → Bool) :
    ∀ (l : List β) (v : β),
    xorFold (fun pr => f pr.1 != f pr.2) (l.zip (v :: l)) =
      (match l.getLast? with
       | none => false
       | some w => f w != f v) := by
  intro l
  induction l with
  | nil => intro v; rfl
  | cons a t ih =>
    intro v
    rw [List.zip_cons_cons]
    unfold xorFold
    rw [List.foldr_cons]
    rw [show (((t.zip (a :: t)).foldr
        (fun pr acc => xor (f pr.1 != f pr.2) acc) false)) =
      xorFold (fun pr => f pr.1 != f pr.2) (t.zip (a :: t)) from rfl]
    rw [ih a]
    cases t with
    | nil =>
      cases hfa : f a <;> cases hfv : f v <;> simp [hfa, hfv]
    | cons b t' =>
      rw [List.getLast?_cons_cons]
      cases hl : (b :: t').getLast? with
      | none => simp at hl
      | some w =>
        cases hfa : f a <;> cases hfv : f v <;> cases hfw : f w <;>
          simp [hfa, hfv, hfw]

theorem mem_of_getLast?_eq {β : Type} (l : List β) (a : β)
    (h : l.getLast? = some a) : a ∈ l := by
  have hx : a ∈ l.getLast? := Option.mem_def.mpr h
  obtain ⟨hne, he⟩ := List.mem_getLast?_eq_getLast hx
  rw [he]
  exact List.getLast_mem hne

theorem xorFold_cyclicPairs (f : ℚ × ℚ → Bool) (polygon : List (ℚ × ℚ)) :
    xorFold (fun pr => f pr.1 != f pr.2) (cyclicPairs polygon) = false := by
  cases hpoly : polygon with
  | nil => rfl
  | cons p0 rest =>
    unfold cyclicPairs
    cases hl : (p0 :: rest).getLast? with
    | none => simp at hl
    | some lst =>
      rw [xorFold_zip_chain f (p0 :: rest) lst, hl]
      simp

theorem mem_cyclicPairs (polygon : List (ℚ × ℚ))
    (pr : (ℚ × ℚ) × (ℚ × ℚ)) (h : pr ∈ cyclicPairs polygon) :
    pr.1 ∈ polygon ∧ pr.2 ∈ polygon := by
  unfold cyclicPairs at h
  cases hl : polygon.getLast? with
  | none => rw [hl] at h; cases h
  | some lst =>
    rw [hl] at h
    obtain ⟨h1, h2⟩ := List.of_mem_zip h
    refine ⟨h1, ?_⟩
    rcases List.mem_cons.mp h2 with he | hm
    · rw [he]
      exact mem_of_getLast?_eq polygon lst hl
    · exact hm

theorem foldl_min_le_init (f : ℚ × ℚ → ℚ) :
    ∀ (l : List (ℚ × ℚ)) (a : ℚ), l.foldl (fun m q => min m (f q)) a ≤ a := by
  intro l
  induction l with
  | nil => intro a; exact le_refl a
  | cons q t ih =>
    intro a
    rw [List.foldl_cons]
    exact le_trans (ih (min a (f q))) (min_le_left a (f q))

theorem foldl_min_le_mem (f : ℚ × ℚ → ℚ) :
    ∀ (l : List (ℚ × ℚ)) (a : ℚ) (x : ℚ × ℚ), x ∈ l →
      l.foldl (fun m q => min m (f q)) a ≤ f x := by
  intro l
  induction l with
  | nil => intro a x hx; cases hx
  | cons q t ih =>
    intro a x hx
    rw [List.foldl_cons]
    rcases List.mem_cons.mp hx with rfl | hxt
    · exact le_trans (foldl_min_le_init f t (min a (f x))) (min_le_right a (f x))
    · exact ih (min a (f q)) x hxt

theorem le_foldl_max_init (f : ℚ × ℚ → ℚ) :
    ∀ (l : List (ℚ × ℚ)) (a : ℚ), a ≤ l.foldl (fun m q => max m (f q)) a := by
  intro l
  induction l with
  | nil => intro a; exact le_refl a
  | cons q t ih =>
    intro a
    rw [List.foldl_cons]
    exact le_trans (le_max_left a (f q)) (ih (max a (f q)))

theorem le_foldl_max_mem (f : ℚ × ℚ → ℚ) :
    ∀ (l : List (ℚ × ℚ)) (a : ℚ) (x : ℚ × ℚ), x ∈ l →
      f x ≤ l.foldl (fun m q => max m (f q)) a := by
  intro l
  induction l with
  | nil => intro a x hx; cases hx
  | cons q t ih =>
    intro a x hx
    rw [List.foldl_cons]
    rcases List.mem_cons.mp hx with rfl | hxt
    · exact le_trans (le_max_right a (f x)) (le_foldl_max_init f t (max a (f x)))
    · exact ih (max a (f q)) x hxt

/-- Every vertex of a nonempty point list lies inside its `get_bbox`. -/
theorem get_bbox_bounds (points : List (ℚ × ℚ)) (v : ℚ × ℚ)
    (hv : v ∈ points) :
    (get_bbox points).1 ≤ v.1 ∧ v.1 ≤ (get_bbox points).2.2.1 ∧
    (get_bbox points).2.1 ≤ v.2 ∧ v.2 ≤ (get_bbox points).2.2.2 := by
  cases points with
  | nil => cases hv
  | cons p rest =>
    rcases List.mem_cons.mp hv with rfl | hm
    · exact ⟨foldl_min_le_init Prod.fst rest v.1,
        le_foldl_max_init Prod.fst rest v.1,
        foldl_min_le_init Prod.snd rest v.2,
        le_foldl_max_init Prod.snd rest v.2⟩
    · exact ⟨foldl_min_le_mem Prod.fst rest p.1 v hm,
        le_foldl_max_mem Prod.fst rest p.1 v hm,
        foldl_min_le_mem Prod.snd rest p.2 v hm,
        le_foldl_max_mem Prod.snd rest p.2 v hm⟩

/-- When an edge straddles the ray's longitude, the longitude-crossing point
of the edge lies between the latitudes of its two endpoints. -/
theorem crossing_point_bounds (lon xi yi xj yj : ℚ)
    (hstr : (decide (yi > lon) != decide (yj > lon)) = true) :
    min xi xj ≤ (xj - xi) * (lon - yi) / (yj - yi) + xi ∧
    (xj - xi) * (lon - yi) / (yj - yi) + xi ≤ max xi xj := by
  have key : ∀ t : ℚ, 0 ≤ t → t ≤ 1 →
      min xi xj ≤ xi + (xj - xi) * t ∧ xi + (xj - xi) * t ≤ max xi xj := by
    intro t ht0 ht1
    rcases le_total xi xj with hle | hle
    · rw [min_eq_left hle, max_eq_right hle]
      constructor <;> nlinarith
    · rw [min_eq_right hle, max_eq_left hle]
      constructor <;> nlinarith
  have hform : (xj - xi) * (lon - yi) / (yj - yi) + xi =
      xi + (xj - xi) * ((lon - yi) / (yj - yi)) := by
    rw [mul_div_assoc]
    ring
  rw [hform]
  by_cases hyi : yi > lon
  · have hyj : ¬ yj > lon := by
      intro hyj
      rw [decide_eq_true hyi, decide_eq_true hyj] at hstr
      cases hstr
    have hd : yj - yi < 0 := by
      push_neg at hyj
      linarith
    refine key _ ?_ ?_
    · rw [le_div_iff_of_neg hd]
      linarith
    · rw [div_le_iff_of_neg hd]
      push_neg at hyj
      linarith
  · have hyj : yj > lon := by
      by_contra hyj
      rw [decide_eq_false hyi, decide_eq_false hyj] at hstr
      cases hstr
    have hd : 0 < yj - yi := by
      push_neg at hyi
      linarith
    refine key _ ?_ ?_
    · apply div_nonneg ?_ (le_of_lt hd)
      push_neg at hyi
      linarith
    · rw [div_le_one hd]
      linarith

/-- C8: a point strictly outside the bounding box of a polygon's vertices is
never reported inside by the ray-casting test. Left or right of the box no
edge straddles the point's longitude; above the box every crossing point lies
below the point; below the box every straddling edge crosses, and a closed
vertex cycle straddles any longitude an even number of times. -/
theorem c8_outside_bbox (polygon : List (ℚ × ℚ)) (lat lon : ℚ)
    (h : lat < (get_bbox polygon).1 ∨ lon < (get_bbox polygon).2.1 ∨
         (get_bbox polygon).2.2.1 < lat ∨ (get_bbox polygon).2.2.2 < lon) :
    point_in_polygon (lat, lon) polygon = false := by
  rw [point_in_polygon_eq_xorFold]
  rcases h with h | h | h | h
  · -- below the box: crossings coincide with straddles, which cancel in pairs
    rw [xorFold_congr (rayCrossing (lat, lon))
      (fun pr => decide (pr.1.2 > lon) != decide (pr.2.2 > lon))
      (cyclicPairs polygon) ?_]
    · exact xorFold_cyclicPairs (fun v => decide (v.2 > lon)) polygon
    · intro pr hpr
      obtain ⟨h1, h2⟩ := mem_cyclicPairs polygon pr hpr
      unfold rayCrossing
      by_cases hstr : (decide (pr.1.2 > lon) != decide (pr.2.2 > lon)) = true
      · have hb := crossing_point_bounds lon pr.1.1 pr.1.2 pr.2.1 pr.2.2 hstr
        have hmin : (get_bbox polygon).1 ≤ min pr.1.1 pr.2.1 :=
          le_min (get_bbox_bounds polygon pr.1 h1).1
            (get_bbox_bounds polygon pr.2 h2).1
        have hxint : lat <
            (pr.2.1 - pr.1.1) * (lon - pr.1.2) / (pr.2.2 - pr.1.2) + pr.1.1 :=
          lt_of_lt_of_le h (le_trans hmin hb.1)
        rw [hstr, decide_eq_true hxint, Bool.true_and]
        exact hstr.symm
      · have hstr' : (decide (pr.1.2 > lon) != decide (pr.2.2 > lon)) = false :=
          Bool.not_eq_true _ ▸ (Bool.eq_false_iff.mpr hstr)
        rw [hstr', Bool.false_and]
        exact hstr'.symm
  · -- left of the box: no edge straddles the longitude
    refine xorFold_false _ (cyclicPairs polygon) ?_
    intro pr hpr
    obtain ⟨h1, h2⟩ := mem_cyclicPairs polygon pr hpr
    have g1 : pr.1.2 > lon :=
      lt_of_lt_of_le h (get_bbox_bounds polygon pr.1 h1).2.2.1
    have g2 : pr.2.2 > lon :=
      lt_of_lt_of_le h (get_bbox_bounds polygon pr.2 h2).2.2.1
    unfold rayCrossing
    rw [decide_eq_true g1, decide_eq_true g2]
    rfl
  · -- above the box: every crossing point lies below the point
    refine xorFold_false _ (cyclicPairs polygon) ?_
    intro pr hpr
    obtain ⟨h1, h2⟩ := mem_cyclicPairs polygon pr hpr
    unfold rayCrossing
    by_cases hstr : (decide (pr.1.2 > lon) != decide (pr.2.2 > lon)) = true
    · have hb := crossing_point_bounds lon pr.1.1 pr.1.2 pr.2.1 pr.2.2 hstr
      have hmax : max pr.1.1 pr.2.1 ≤ (get_bbox polygon).2.2.1 :=
        max_le (get_bbox_bounds polygon pr.1 h1).2.1
          (get_bbox_bounds polygon pr.2 h2).2.1
      have hxint : ¬ lat <
          (pr.2.1 - pr.1.1) * (lon - pr.1.2) / (pr.2.2 - pr.1.2) + pr.1.1 := by
        push_neg
        exact le_of_lt (lt_of_le_of_lt (le_trans hb.2 hmax) h)
      rw [decide_eq_false hxint, Bool.and_false]
    · have hstr' : (decide (pr.1.2 > lon) != decide (pr.2.2 > lon)) = false :=
        Bool.not_eq_true _ ▸ (Bool.eq_false_iff.mpr hstr)
      rw [hstr', Bool.false_and]
  · -- right of the box: no edge straddles the longitude
    refine xorFold_false _ (cyclicPairs polygon) ?_
    intro pr hpr
    obtain ⟨h1, h2⟩ := mem_cyclicPairs polygon pr hpr
    have g1 : ¬ pr.1.2 > lon := by
      push_neg
      exact le_of_lt (lt_of_le_of_lt (get_bbox_bounds polygon pr.1 h1).2.2.2 h)
    have g2 : ¬ pr.2.2 > lon := by
      push_neg
      exact le_of_lt (lt_of_le_of_lt (get_bbox_bounds polygon pr.2 h2).2.2.2 h)
    unfold rayCrossing
    rw [decide_eq_false g1, decide_eq_false g2]
    rfl

/-- Witness for `c8_outside_bbox`: a point strictly below, left, above and
right of a concrete quadrilateral's bounding box. -/
theorem c8_outside_bbox_witness :
    point_in_polygon (-3, 5) [(0, 0), (0, 10), (10, 10), (10, 0)] = false ∧
    point_in_polygon (5, -2) [(0, 0), (0, 10), (10, 10), (10, 0)] = false ∧
    point_in_polygon (17, 5) [(0, 0), (0, 10), (10, 10), (10, 0)] = false ∧
    point_in_polygon (5, 22) [(0, 0), (0, 10), (10, 10), (10, 0)] = false := by
  refine ⟨c8_outside_bbox _ (-3) 5 (Or.inl (by decide)),
    c8_outside_bbox _ 5 (-2) (Or.inr (Or.inl (by decide))),
    c8_outside_bbox _ 17 5 (Or.inr (Or.inr (Or.inl (by decide)))),
    c8_outside_bbox _ 5 22 (Or.inr (Or.inr (Or.inr (by decide))))⟩
